import Mathlib

/-!
Verification development for the TaskGraph graph-interaction engine
(`src/scripts/graph.ts`).  The DOM-backed entity model is embedded as an
explicit state value:

* an `HTMLTaskElement` becomes a `TaskElem` record held in an association
  list keyed by a synthetic identifier (modelling JavaScript object
  identity); the list order is the child order of `itemsContainer`;
* an `HTMLDependencyElement` becomes a `DepElem` record held in a second
  association list (child order of the `arrows` container);
* CSS classes `completed` / `selected` / `dragged` become boolean fields;
* `CustomEvent` dispatches become an append-only event trace;
* numeric pixel quantities are embedded as rationals.

Functions whose source lives in the missing `geometry.js` / `misc.js`
modules are modelled from the spec and marked as such in their doc
comments; everything else is translated directly from the TypeScript in
`graph.ts` (and the inline definitions in the README's embedded copy of
the module).

Purely visual effects (SVG `d` attributes written by `updatePath`, the
CSS transform written by `updatePanzoom`) have no bearing on the model
state and are not tracked.
-/

/-- A 2D point; coordinates are pixels, embedded as rationals. -/
structure Point where
  x : ℚ
  y : ℚ
  deriving DecidableEq, Repr

/-- An axis-aligned box as produced by `getOffsetBox` (offsetLeft/Top/Width/Height). -/
structure Box where
  left : ℚ
  top : ℚ
  width : ℚ
  height : ℚ
  deriving DecidableEq, Repr

/-- Task status, the `"todo" | "completed"` union of the `Task` interface. -/
inductive Status where
  | todo
  | completed
  deriving DecidableEq, Repr

/-- Events dispatched on the graph container, identified by task ids. -/
inductive Event where
  | selectionchanged (sel : List Nat)
  | taskmoved (task : Nat)
  | newdependency
  deriving DecidableEq, Repr

/-- The state of an `HTMLTaskElement`: its text content (the task name),
its CSS classes `completed`/`selected`/`dragged` as booleans, its style
position, and its `from`/`to` adjacency arrays holding dependency ids. -/
structure TaskElem where
  name : String
  completed : Bool
  selected : Bool
  dragged : Bool
  pos : Point
  fromList : List Nat
  toList : List Nat
  deriving DecidableEq, Repr

/-- The state of an `HTMLDependencyElement`: its `from` and `to` task
references, as task ids. -/
structure DepElem where
  fromTask : Nat
  toTask : Nat
  deriving DecidableEq, Repr

/-- The `panzoom` module-level object. -/
structure Panzoom where
  pan : Point
  zoom : ℚ
  deriving DecidableEq, Repr

/-- The whole observable DOM/model state of the graph module.  `tasks` is
the (ordered) list of task elements in `itemsContainer`, `deps` the list
of dependency path elements in `arrows`; both are keyed by synthetic
identifiers standing for object identity, drawn from `nextId`. -/
structure GraphState where
  tasks : List (Nat × TaskElem)
  deps : List (Nat × DepElem)
  nextId : Nat
  panzoom : Panzoom
  events : List Event
  deriving DecidableEq, Repr

/-- Layout facts the module reads from the environment: the offset box of
the `graph` container and the rendered size of a freshly created task
element. -/
structure Env where
  containerBox : Box
  elemWidth : ℚ
  elemHeight : ℚ
  deriving DecidableEq, Repr

/-- A task record of the serialized document format. -/
structure DocTask where
  name : String
  pos : Point
  status : Status
  deriving DecidableEq, Repr

/-- A dependency record of the serialized document format. -/
structure DocDep where
  predecessor : String
  successor : String
  deriving DecidableEq, Repr

/-- The serialized `Graph` document. -/
structure GraphDoc where
  tasks : List DocTask
  dependencies : List DocDep
  deriving DecidableEq, Repr

/-- First association-list entry with the given key, modelling a
reference to the element with that identity. -/
def lookup? (l : List (Nat × α)) (i : Nat) : Option α :=
  (l.find? (fun p => p.1 == i)).map Prod.snd

/-- In-place mutation of the element with identity `i` (all entries with
that key are rewritten; keys are unique in every reachable state). -/
def updateTask (l : List (Nat × TaskElem)) (i : Nat) (f : TaskElem → TaskElem) :
    List (Nat × TaskElem) :=
  l.map (fun p => if p.1 = i then (p.1, f p.2) else p)

/-- `parent.removeChild(e)`: drop the entry with identity `i`. -/
def removeKey (l : List (Nat × α)) (i : Nat) : List (Nat × α) :=
  l.filter (fun p => !(p.1 == i))

/-- `removeFromArray` from the repository (README inline copy):
`array.splice(array.indexOf(element), 1)`.  When the element is present
this removes its first occurrence; when absent, `indexOf` yields `-1` and
`splice(-1, 1)` removes the last element of the array. -/
def removeFromArray (l : List Nat) (x : Nat) : List Nat :=
  if x ∈ l then l.erase x else l.dropLast

/-- The `from` adjacency array of the task with identity `u` (empty when
there is no such live task). -/
def fromListOf (tasks : List (Nat × TaskElem)) (u : Nat) : List Nat :=
  ((lookup? tasks u).map TaskElem.fromList).getD []

/-- The `to` adjacency array of the task with identity `u`. -/
def toListOf (tasks : List (Nat × TaskElem)) (u : Nat) : List Nat :=
  ((lookup? tasks u).map TaskElem.toList).getD []

/-- The `from` endpoint of the live dependency `d`, if any. -/
def depFromOf (deps : List (Nat × DepElem)) (d : Nat) : Option Nat :=
  (lookup? deps d).map DepElem.fromTask

/-- The `to` endpoint of the live dependency `d`, if any. -/
def depToOf (deps : List (Nat × DepElem)) (d : Nat) : Option Nat :=
  (lookup? deps d).map DepElem.toTask

/-- `tasks.find((task) => task.textContent == name)`: the first live task
element whose text content is the given name. -/
def findTaskByName (tasks : List (Nat × TaskElem)) (n : String) :
    Option (Nat × TaskElem) :=
  tasks.find? (fun q => q.2.name == n)

/-- `getSelected()`: the live tasks carrying the `selected` class, in
render order, as ids. -/
def getSelected (st : GraphState) : List Nat :=
  (st.tasks.filter (fun q => q.2.selected)).map Prod.fst

/-- `sendSelectionChanged(selection?)`: dispatches `selectionchanged`
with the given selection, or with `getSelected()` when none is passed. -/
def sendSelectionChanged (st : GraphState) (sel : Option (List Nat)) : GraphState :=
  { st with events := st.events ++ [Event.selectionchanged (sel.getD (getSelected st))] }

/-- One step of `resetSelected`'s `forEach`: remove the `selected` class. -/
def unselectStep (st : GraphState) (i : Nat) : GraphState :=
  { st with tasks := updateTask st.tasks i (fun te => { te with selected := false }) }

/-- `resetSelected()`: snapshot the selected tasks, then remove the
`selected` class from each. -/
def resetSelected (st : GraphState) : GraphState :=
  (getSelected st).foldl unselectStep st

/-- `onTaskClicked(task, event)`: shift-click toggles membership of the
task in the selection; a plain click makes the selection exactly that
task.  Both dispatch `selectionchanged`. -/
def onTaskClicked (task : Nat) (shiftKey : Bool) (st : GraphState) : GraphState :=
  if shiftKey then
    let st1 := { st with
      tasks := updateTask st.tasks task (fun te => { te with selected := !te.selected }) }
    sendSelectionChanged st1 none
  else
    let st1 := resetSelected st
    let st2 := { st1 with
      tasks := updateTask st1.tasks task (fun te => { te with selected := true }) }
    sendSelectionChanged st2 (some [task])

/-- Modelled from the spec: `squaredDistance` of the missing
`geometry.js` — the sum of squared coordinate differences (§4.1). -/
def squaredDistance (p q : Point) : ℚ :=
  (p.x - q.x) * (p.x - q.x) + (p.y - q.y) * (p.y - q.y)

/-- Modelled from the spec: `getBoxCenter` of the missing `geometry.js`
— the center point of a box (§4.1). -/
def getBoxCenter (b : Box) : Point :=
  ⟨b.left + b.width / 2, b.top + b.height / 2⟩

/-- `snap` from the repository (README inline copy): snaps `value` to
`target` when it is closer to `target` than `offset`. -/
def snap (target offset value : ℚ) : ℚ :=
  if target - offset < value ∧ value < target + offset then target else value

/-- The zoom update performed by the `setupZoom` wheel handler:
`panzoom.zoom = snap(1)(0.1)(panzoom.zoom * factor)`. -/
def applyZoomFactor (zoom factor : ℚ) : ℚ :=
  snap 1 (1 / 10) (zoom * factor)

/-- `getViewCenter()`: the center of the graph container's offset box,
translated back by the current pan.  (The source does not consult the
zoom factor here.) -/
def getViewCenter (env : Env) (pz : Panzoom) : Point :=
  let c := getBoxCenter env.containerBox
  ⟨c.x - pz.pan.x, c.y - pz.pan.y⟩

/-- `computeCenteredPos(element)`: the position placing the element's box
centered on `getViewCenter()`. -/
def computeCenteredPos (env : Env) (pz : Panzoom) : Point :=
  let v := getViewCenter env pz
  ⟨v.x - env.elemWidth / 2, v.y - env.elemHeight / 2⟩

/-- The argument of `addTask`: `Partial<Task>` with a mandatory name. -/
structure AddTaskSpec where
  name : String
  status : Option Status
  pos : Option Point
  deriving DecidableEq, Repr

/-- `addTask(task)`: appends a fresh task element with the given name,
the `completed` class iff `status === "completed"`, empty adjacency, and
the given position, or `computeCenteredPos` when no position is given. -/
def addTask (env : Env) (st : GraphState) (spec : AddTaskSpec) : GraphState :=
  let completed := match spec.status with
    | some Status.completed => true
    | _ => false
  let pos := match spec.pos with
    | some p => p
    | none => computeCenteredPos env st.panzoom
  { st with
    tasks := st.tasks ++ [(st.nextId,
      { name := spec.name, completed := completed, selected := false,
        dragged := false, pos := pos, fromList := [], toList := [] })],
    nextId := st.nextId + 1 }

/-- The two failure cases of `addDependency`, reported via
`console.error` in the source. -/
inductive DepError where
  | predecessorNotFound
  | successorNotFound
  deriving DecidableEq, Repr

/-- `addDependency(dependency)`: resolves both endpoint names against the
live tasks; on failure logs and returns without touching the model; on
success pushes the new path element onto the predecessor's `from` array
and the successor's `to` array and appends it to `arrows`. -/
def addDependency (st : GraphState) (dep : DocDep) : GraphState × Option DepError :=
  match findTaskByName st.tasks dep.predecessor with
  | none => (st, some DepError.predecessorNotFound)
  | some p =>
    match findTaskByName st.tasks dep.successor with
    | none => (st, some DepError.successorNotFound)
    | some s =>
      let d := st.nextId
      let tasks1 := updateTask st.tasks p.1 (fun te => { te with fromList := te.fromList ++ [d] })
      let tasks2 := updateTask tasks1 s.1 (fun te => { te with toList := te.toList ++ [d] })
      ({ st with
          tasks := tasks2,
          deps := st.deps ++ [(d, { fromTask := p.1, toTask := s.1 })],
          nextId := st.nextId + 1 }, none)

/-- `deleteDependency(dependency)`: removes the dependency from its
predecessor's `from` array and its successor's `to` array (both via
`removeFromArray`), then removes its path element from `arrows`. -/
def deleteDependency (st : GraphState) (d : Nat) : GraphState :=
  match lookup? st.deps d with
  | none => st
  | some de =>
    let tasks1 := updateTask st.tasks de.fromTask
      (fun te => { te with fromList := removeFromArray te.fromList d })
    let tasks2 := updateTask tasks1 de.toTask
      (fun te => { te with toList := removeFromArray te.toList d })
    { st with tasks := tasks2, deps := removeKey st.deps d }

/-- `deleteTask(task)`: deletes every dependency of a snapshot of
`task.from`, then every dependency of a (fresh) snapshot of `task.to`,
then removes the task element itself. -/
def deleteTask (st : GraphState) (t : Nat) : GraphState :=
  match lookup? st.tasks t with
  | none => st
  | some te =>
    let st1 := te.fromList.foldl deleteDependency st
    let st2 := match lookup? st1.tasks t with
      | none => st1
      | some te1 => te1.toList.foldl deleteDependency st1
    { st2 with tasks := removeKey st2.tasks t }

/-- `selectAll()`: adds the `selected` class to every task and dispatches
`selectionchanged` with the full task list. -/
def selectAll (st : GraphState) : GraphState :=
  let ids := st.tasks.map Prod.fst
  let st1 := ids.foldl
    (fun s i => { s with tasks := updateTask s.tasks i (fun te => { te with selected := true }) }) st
  sendSelectionChanged st1 (some ids)

/-- `deleteSelected()`: deletes each selected task, then dispatches
`selectionchanged` with the empty selection. -/
def deleteSelected (st : GraphState) : GraphState :=
  sendSelectionChanged ((getSelected st).foldl deleteTask st) (some [])

/-- One step of `completeSelected`'s `forEach`: toggle the `completed`
class of the task. -/
def toggleCompletedStep (st : GraphState) (i : Nat) : GraphState :=
  { st with tasks := updateTask st.tasks i (fun te => { te with completed := !te.completed }) }

/-- `completeSelected()`: snapshot the selected tasks, then toggle the
`completed` class of each.  No event is dispatched. -/
def completeSelected (st : GraphState) : GraphState :=
  (getSelected st).foldl toggleCompletedStep st

/-- `clearGraph()`: removes every task and every dependency element. -/
def clearGraph (st : GraphState) : GraphState :=
  { st with tasks := [], deps := [] }

/-- `loadGraph(graph)`: clears the model, adds the document's tasks in
order, then adds its dependencies in order (failures are logged and
skipped inside `addDependency`). -/
def loadGraph (env : Env) (st : GraphState) (g : GraphDoc) : GraphState :=
  let st0 := clearGraph st
  let st1 := g.tasks.foldl
    (fun s t => addTask env s { name := t.name, status := some t.status, pos := some t.pos }) st0
  g.dependencies.foldl (fun s d => (addDependency s d).1) st1

/-- The text content of the task referenced by id `u`, as read by
`getGraph` through `e.from.textContent`; every dependency's endpoints are
live in every reachable state, so the default is never consulted. -/
def taskNameOf (tasks : List (Nat × TaskElem)) (u : Nat) : String :=
  ((lookup? tasks u).map TaskElem.name).getD ""

/-- `getGraph()`: serializes the live tasks (name, offset-box position —
equal to the stored style position — and status) and the live
dependencies (endpoint names). -/
def getGraph (st : GraphState) : GraphDoc :=
  { tasks := st.tasks.map (fun q =>
      { name := q.2.name, pos := q.2.pos,
        status := if q.2.completed then Status.completed else Status.todo }),
    dependencies := st.deps.map (fun q =>
      { predecessor := taskNameOf st.tasks q.2.fromTask,
        successor := taskNameOf st.tasks q.2.toTask }) }

/-- `moveTask(task, pos)`: writes the task's style position.  (The
incident `updatePath` calls only rewrite SVG path attributes.) -/
def moveTask (st : GraphState) (t : Nat) (pos : Point) : GraphState :=
  { st with tasks := updateTask st.tasks t (fun te => { te with pos := pos }) }

/-- A pointer event as consumed by the gesture handlers. -/
structure PointerEvent where
  pointerId : Nat
  clientX : ℚ
  clientY : ℚ
  offsetX : ℚ
  offsetY : ℚ
  pageX : ℚ
  pageY : ℚ
  shiftKey : Bool
  deriving DecidableEq, Repr

/-- The result of `document.elementFromPoint` at a release point: no
element, a task element (by id), or some other element. -/
inductive Hit where
  | none
  | task (t : Nat)
  | other
  deriving DecidableEq, Repr

/-- The hit-testing environment of a link gesture. -/
structure LinkEnv where
  hit : ℚ → ℚ → Hit

/-- Whether any move event was delivered to the link gesture: the link
branch's `onPointerMove` sets `moved = true` on every event with the
captured pointer id, with no movement threshold. -/
def linkMoved (pid : Nat) (moves : List PointerEvent) : Bool :=
  moves.any (fun m => m.pointerId == pid)

/-- The link branch's `onPointerEnd`: on a foreign pointer id, nothing
happens; otherwise a non-moved gesture first resolves as a click, and
then — regardless — the element under the release point is hit-tested:
over a task element the provisional path is committed (its `to` is set,
it is pushed onto both adjacency arrays, and `newdependency` is
dispatched); otherwise it is removed from `arrows`. -/
def onLinkPointerEnd (env : LinkEnv) (pressed pid : Nat) (moved : Bool)
    (endEv : PointerEvent) (st : GraphState) : GraphState :=
  if endEv.pointerId ≠ pid then st
  else
    let st1 := if moved then st else onTaskClicked pressed endEv.shiftKey st
    match env.hit endEv.pageX endEv.pageY with
    | Hit.task t =>
      let d := st1.nextId
      let tasks1 := updateTask st1.tasks pressed (fun te => { te with fromList := te.fromList ++ [d] })
      let tasks2 := updateTask tasks1 t (fun te => { te with toList := te.toList ++ [d] })
      { st1 with
        tasks := tasks2,
        deps := st1.deps ++ [(d, { fromTask := pressed, toTask := t })],
        nextId := d + 1,
        events := st1.events ++ [Event.newdependency] }
    | _ => st1

/-- A whole link-creation gesture: the provisional path created at
pointer-down only ever has its rendered destination updated during moves
(visual only), so the observable effect is `onLinkPointerEnd` with the
accumulated `moved` flag. -/
def runLinkGesture (env : LinkEnv) (pressed pid : Nat)
    (moves : List PointerEvent) (endEv : PointerEvent) (st : GraphState) : GraphState :=
  onLinkPointerEnd env pressed pid (linkMoved pid moves) endEv st

/-- The drag branch's `onPointerMove` for one event: on the captured
pointer id, the task is moved to the event's offset position minus the
press offset (the threshold check only drives the `moved` flag, which is
tracked separately by `dragMoved`). -/
def dragMoveStep (pressed pid : Nat) (pressOffset : Point)
    (st : GraphState) (m : PointerEvent) : GraphState :=
  if m.pointerId == pid then
    moveTask st pressed ⟨m.offsetX - pressOffset.x, m.offsetY - pressOffset.y⟩
  else st

/-- Whether the drag gesture's sticky `moved` flag is set by the end of
the move stream: some delivered move's client position lies farther than
the 5px threshold (squared comparison, strict) from the initial one. -/
def dragMoved (pid : Nat) (initial : Point) (moves : List PointerEvent) : Bool :=
  moves.any (fun m =>
    m.pointerId == pid && decide (squaredDistance initial ⟨m.clientX, m.clientY⟩ > 25))

/-- The drag branch's `onPointerEnd`: on a foreign pointer id nothing
happens; otherwise the `dragged` class is removed and either `taskmoved`
is dispatched (when the sticky `moved` flag was set by the move stream)
or the gesture resolves as a click. -/
def onDragPointerEnd (pressed pid : Nat) (initial : Point)
    (moves : List PointerEvent) (endEv : PointerEvent) (st1 : GraphState) : GraphState :=
  if endEv.pointerId ≠ pid then st1
  else
    let st2 := { st1 with
      tasks := updateTask st1.tasks pressed (fun te => { te with dragged := false }) }
    if dragMoved pid initial moves then
      { st2 with events := st2.events ++ [Event.taskmoved pressed] }
    else onTaskClicked pressed endEv.shiftKey st2

/-- A whole task-drag gesture: pointer-down adds the `dragged` class and
records the initial client position and press offset; every matching
move repositions the task; release behaves as `onDragPointerEnd`. -/
def runDragGesture (pressed : Nat) (pressEv : PointerEvent)
    (moves : List PointerEvent) (endEv : PointerEvent) (st : GraphState) : GraphState :=
  let pid := pressEv.pointerId
  let st0 := { st with tasks := updateTask st.tasks pressed (fun te => { te with dragged := true }) }
  let st1 := moves.foldl (dragMoveStep pressed pid ⟨pressEv.offsetX, pressEv.offsetY⟩) st0
  onDragPointerEnd pressed pid ⟨pressEv.clientX, pressEv.clientY⟩ moves endEv st1

/-- The module's start state: empty containers, identity panzoom. -/
def emptyState : GraphState :=
  { tasks := [], deps := [], nextId := 0,
    panzoom := { pan := ⟨0, 0⟩, zoom := 1 }, events := [] }

/-! ### Association-list lemmas -/

theorem lookup?_cons (k : Nat) (v : α) (l : List (Nat × α)) (i : Nat) :
    lookup? ((k, v) :: l) i = if k = i then some v else lookup? l i := by
  rcases eq_or_ne k i with h | h <;> simp [lookup?, List.find?_cons, h]

theorem updateTask_cons (k : Nat) (v : TaskElem) (l : List (Nat × TaskElem))
    (i : Nat) (f : TaskElem → TaskElem) :
    updateTask ((k, v) :: l) i f =
      (if k = i then (k, f v) else (k, v)) :: updateTask l i f := by
  rcases eq_or_ne k i with h | h <;> simp [updateTask, h]

theorem lookup?_updateTask (l : List (Nat × TaskElem)) (i : Nat)
    (f : TaskElem → TaskElem) (j : Nat) :
    lookup? (updateTask l i f) j =
      if j = i then (lookup? l j).map f else lookup? l j := by
  induction l with
  | nil => simp [updateTask, lookup?]
  | cons a l ih =>
    obtain ⟨k, v⟩ := a
    rw [updateTask_cons]
    by_cases hk : k = i
    · subst hk
      by_cases hkj : k = j
      · subst hkj
        simp [lookup?_cons]
      · simp [lookup?_cons, hkj, Ne.symm hkj, ih]
    · by_cases hkj : k = j
      · subst hkj
        simp [lookup?_cons, hk, Ne.symm hk, ih]
      · simp [lookup?_cons, hk, hkj, ih]

theorem updateTask_keys (l : List (Nat × TaskElem)) (i : Nat) (f : TaskElem → TaskElem) :
    (updateTask l i f).map Prod.fst = l.map Prod.fst := by
  induction l with
  | nil => rfl
  | cons a l ih =>
    obtain ⟨k, v⟩ := a
    rw [updateTask_cons]
    rcases eq_or_ne k i with hk | hk <;> simp [hk, ih]

theorem mem_removeKey {l : List (Nat × α)} {i : Nat} {p : Nat × α} :
    p ∈ removeKey l i ↔ p ∈ l ∧ p.1 ≠ i := by
  simp [removeKey, List.mem_filter]

theorem removeKey_cons (k : Nat) (v : α) (l : List (Nat × α)) (i : Nat) :
    removeKey ((k, v) :: l) i =
      if k = i then removeKey l i else (k, v) :: removeKey l i := by
  rcases eq_or_ne k i with h | h <;> simp [removeKey, List.filter_cons, h]

theorem lookup?_removeKey (l : List (Nat × α)) (i j : Nat) :
    lookup? (removeKey l i) j = if j = i then none else lookup? l j := by
  induction l with
  | nil => simp [removeKey, lookup?]
  | cons a l ih =>
    obtain ⟨k, v⟩ := a
    rw [removeKey_cons]
    by_cases hk : k = i
    · subst hk
      by_cases hkj : k = j
      · subst hkj
        simp [lookup?_cons, ih]
      · simp [lookup?_cons, hkj, Ne.symm hkj, ih]
    · by_cases hkj : k = j
      · subst hkj
        simp [lookup?_cons, hk, Ne.symm hk, ih]
      · simp [lookup?_cons, hk, hkj, ih]

theorem removeKey_sublist (l : List (Nat × α)) (i : Nat) :
    List.Sublist (removeKey l i) l :=
  List.filter_sublist _

theorem mem_of_lookup?_eq_some {l : List (Nat × α)} {i : Nat} {v : α}
    (h : lookup? l i = some v) : (i, v) ∈ l := by
  induction l with
  | nil => simp [lookup?] at h
  | cons a l ih =>
    obtain ⟨k, w⟩ := a
    rw [lookup?_cons] at h
    rcases eq_or_ne k i with hk | hk
    · subst hk
      simp at h
      subst h
      exact List.mem_cons_self _ _
    · rw [if_neg hk] at h
      exact List.mem_cons_of_mem _ (ih h)

theorem lookup?_eq_some_of_mem {l : List (Nat × α)} (hnd : (l.map Prod.fst).Nodup)
    {p : Nat × α} (h : p ∈ l) : lookup? l p.1 = some p.2 := by
  induction l with
  | nil => simp at h
  | cons a l ih =>
    obtain ⟨k, w⟩ := a
    rw [List.map_cons, List.nodup_cons] at hnd
    rcases List.mem_cons.mp h with h | h
    · subst h
      simp [lookup?_cons]
    · by_cases hk : k = p.1
      · exact absurd (List.mem_map.mpr ⟨p, h, rfl⟩) (hk ▸ hnd.1)
      · rw [lookup?_cons, if_neg hk]
        exact ih hnd.2 h

theorem lookup?_isSome_iff {l : List (Nat × α)} {i : Nat} :
    (lookup? l i).isSome ↔ i ∈ l.map Prod.fst := by
  induction l with
  | nil => simp [lookup?]
  | cons a l ih =>
    obtain ⟨k, w⟩ := a
    rw [lookup?_cons]
    by_cases hk : k = i
    · subst hk
      simp
    · simp [hk, Ne.symm hk, ih]

theorem key_inj {l : List (Nat × α)} (hnd : (l.map Prod.fst).Nodup)
    {p q : Nat × α} (hp : p ∈ l) (hq : q ∈ l) (h : p.1 = q.1) : p = q := by
  have h1 : lookup? l p.1 = some p.2 := lookup?_eq_some_of_mem hnd hp
  have h2 : lookup? l q.1 = some q.2 := lookup?_eq_some_of_mem hnd hq
  rw [h, h2] at h1
  exact Prod.ext h (Option.some.inj h1).symm

/-! ### Zoom snapping (C8) -/

/-- Claim C8: the wheel-zoom update multiplies the current zoom by the
factor and snaps: a product strictly within the 0.1 tolerance window
around 1 becomes exactly 1, any other product is kept exactly. -/
theorem applyZoomFactor_snap (z f : ℚ) :
    (1 - 1 / 10 < z * f ∧ z * f < 1 + 1 / 10 → applyZoomFactor z f = 1) ∧
    (¬(1 - 1 / 10 < z * f ∧ z * f < 1 + 1 / 10) → applyZoomFactor z f = z * f) := by
  constructor
  · intro h
    unfold applyZoomFactor snap
    rw [if_pos h]
  · intro h
    unfold applyZoomFactor snap
    rw [if_neg h]

/-- Witness for C8 at the spec's concrete instances: 1.0 × 1.02 snaps to
exactly 1, while 1.3 × 0.9 = 1.17 does not snap. -/
theorem applyZoomFactor_snap_witness :
    applyZoomFactor 1 (102 / 100) = 1 ∧
      applyZoomFactor (13 / 10) (9 / 10) = 117 / 100 := by
  constructor
  · exact (applyZoomFactor_snap 1 (102 / 100)).1 (by norm_num)
  · rw [(applyZoomFactor_snap (13 / 10) (9 / 10)).2 (by norm_num)]
    norm_num

/-! ### addDependency failure (C7) -/

/-- Claim C7: `addDependency` with an endpoint name that resolves to no
live task fails with a reported error (modelling the `console.error`
log), leaves the model entirely unchanged — no adjacency array is
touched and no path element is appended — and a caller folding over a
document's dependency list, as `loadGraph` does, continues with the
remaining entries. -/
theorem addDependency_missing_endpoint (st : GraphState) (dep : DocDep)
    (h : (∀ q ∈ st.tasks, q.2.name ≠ dep.predecessor) ∨
         (∀ q ∈ st.tasks, q.2.name ≠ dep.successor)) :
    (addDependency st dep).1 = st ∧ (addDependency st dep).2.isSome = true ∧
      ∀ rest : List DocDep,
        (dep :: rest).foldl (fun s x => (addDependency s x).1) st =
          rest.foldl (fun s x => (addDependency s x).1) st := by
  have hmain : (addDependency st dep).1 = st ∧ (addDependency st dep).2.isSome = true := by
    rcases h with h | h
    · have hfp : findTaskByName st.tasks dep.predecessor = none := by
        unfold findTaskByName
        apply List.find?_eq_none.mpr
        intro q hq
        simpa using h q hq
      simp [addDependency, hfp]
    · have hfs : findTaskByName st.tasks dep.successor = none := by
        unfold findTaskByName
        apply List.find?_eq_none.mpr
        intro q hq
        simpa using h q hq
      cases hfp : findTaskByName st.tasks dep.predecessor with
      | none => simp [addDependency, hfp]
      | some p => simp [addDependency, hfp, hfs]
  refine ⟨hmain.1, hmain.2, fun rest => ?_⟩
  rw [List.foldl_cons, hmain.1]

/-- A bare task element used by concrete instances. -/
def wtask (n : String) : TaskElem :=
  { name := n, completed := false, selected := false, dragged := false,
    pos := ⟨0, 0⟩, fromList := [], toList := [] }

/-- A one-task state used by the C7 witness. -/
def wst7 : GraphState :=
  { tasks := [(0, wtask "A")], deps := [], nextId := 1,
    panzoom := { pan := ⟨0, 0⟩, zoom := 1 }, events := [] }

/-- Witness for C7: adding a dependency whose successor name "B" names
no live task leaves the one-task model unchanged and reports an error. -/
theorem addDependency_missing_endpoint_witness :
    (addDependency wst7 ⟨"A", "B"⟩).1 = wst7 ∧
      (addDependency wst7 ⟨"A", "B"⟩).2.isSome = true :=
  ⟨(addDependency_missing_endpoint wst7 ⟨"A", "B"⟩ (Or.inr (by decide))).1,
   (addDependency_missing_endpoint wst7 ⟨"A", "B"⟩ (Or.inr (by decide))).2.1⟩

/-! ### addTask positioning (C9) -/

/-- The position claim C9 prescribes in the no-explicit-position case:
the box centered on the world-space point that the pan-zoom transform
`translate(pan) · scale(zoom)` maps to the viewport center.  Stated from
the claim's words, for comparison with the source's `computeCenteredPos`. -/
def claimedCenteredPos (env : Env) (pz : Panzoom) : Point :=
  let c := getBoxCenter env.containerBox
  ⟨(c.x - pz.pan.x) / pz.zoom - env.elemWidth / 2,
   (c.y - pz.pan.y) / pz.zoom - env.elemHeight / 2⟩

/-- Claim C9 (amended): an explicit position is used exactly; with no
explicit position the new task's box is centered on the container box
center translated back by the current pan — the zoom factor is not
consulted, so this coincides with the pan-zoom preimage of the viewport
center only at zoom 1. -/
theorem addTask_position (env : Env) (st : GraphState) (spec : AddTaskSpec) :
    (∀ p, spec.pos = some p →
      ((addTask env st spec).tasks.map (fun q => q.2.pos)).getLast? = some p) ∧
    (spec.pos = none →
      ((addTask env st spec).tasks.map (fun q =>
          (q.2.pos.x + env.elemWidth / 2, q.2.pos.y + env.elemHeight / 2))).getLast? =
        some ((getBoxCenter env.containerBox).x - st.panzoom.pan.x,
              (getBoxCenter env.containerBox).y - st.panzoom.pan.y)) := by
  constructor
  · intro p hp
    simp [addTask, hp]
  · intro hp
    simp [addTask, hp, computeCenteredPos, getViewCenter]

/-- The layout environment used by concrete gesture/position instances:
a 200×200 container at the origin, 20×20 task elements. -/
def cexEnv : Env := { containerBox := ⟨0, 0, 200, 200⟩, elemWidth := 20, elemHeight := 20 }

/-- A zoomed-in empty state (zoom 2, no pan). -/
def cexZoomedState : GraphState :=
  { tasks := [], deps := [], nextId := 0,
    panzoom := { pan := ⟨0, 0⟩, zoom := 2 }, events := [] }

/-- Counterexample to claim C9 as stated: at zoom 2 the task placed by
`addTask` without an explicit position sits at (90, 90) — its box is
centered on the raw container center minus the pan — which is not the
position that would center it on the world-space preimage of the
viewport center under the full pan-zoom transform (that would be
(40, 40)). -/
theorem addTask_position_cex :
    ((addTask cexEnv cexZoomedState ⟨"A", none, none⟩).tasks.map (fun q => q.2.pos))
        = [⟨90, 90⟩] ∧
      claimedCenteredPos cexEnv cexZoomedState.panzoom = ⟨40, 40⟩ ∧
      (⟨90, 90⟩ : Point) ≠ ⟨40, 40⟩ := by
  refine ⟨?_, ?_, by decide⟩
  · simp [addTask, computeCenteredPos, getViewCenter, getBoxCenter, cexEnv, cexZoomedState]
    norm_num
  · simp [claimedCenteredPos, getBoxCenter, cexEnv, cexZoomedState]
    norm_num

/-- Witness for C9's amended theorem at concrete inputs: an explicit
position (3, 4) is used exactly, and a task created with no explicit
position in the identity-panzoom state has its box centered on the
container center. -/
theorem addTask_position_witness :
    ((addTask cexEnv emptyState ⟨"A", none, some ⟨3, 4⟩⟩).tasks.map (fun q => q.2.pos)).getLast?
        = some ⟨3, 4⟩ ∧
    ((addTask cexEnv emptyState ⟨"B", none, none⟩).tasks.map (fun q =>
        (q.2.pos.x + cexEnv.elemWidth / 2, q.2.pos.y + cexEnv.elemHeight / 2))).getLast?
        = some ((getBoxCenter cexEnv.containerBox).x - emptyState.panzoom.pan.x,
                (getBoxCenter cexEnv.containerBox).y - emptyState.panzoom.pan.y) :=
  ⟨(addTask_position cexEnv emptyState ⟨"A", none, some ⟨3, 4⟩⟩).1 ⟨3, 4⟩ rfl,
   (addTask_position cexEnv emptyState ⟨"B", none, none⟩).2 rfl⟩

/-! ### completeSelected (C10) -/

theorem foldl_tasksOnly (f : TaskElem → TaskElem) (S : List Nat) (st : GraphState) :
    S.foldl (fun s i => { s with tasks := updateTask s.tasks i f }) st =
      { st with tasks := S.foldl (fun l i => updateTask l i f) st.tasks } := by
  induction S generalizing st with
  | nil => rfl
  | cons i S ih =>
    rw [List.foldl_cons, List.foldl_cons, ih]

theorem foldl_update_eq_map (f : TaskElem → TaskElem) :
    ∀ (S : List Nat), S.Nodup → ∀ (l : List (Nat × TaskElem)),
      S.foldl (fun acc i => updateTask acc i f) l =
        l.map (fun q => if q.1 ∈ S then (q.1, f q.2) else q) := by
  intro S
  induction S with
  | nil =>
    intro _ l
    simp
  | cons i S ih =>
    intro hS l
    rw [List.nodup_cons] at hS
    rw [List.foldl_cons, ih hS.2]
    conv_lhs => rw [updateTask]
    rw [List.map_map]
    apply List.map_congr_left
    intro q hq
    by_cases h1 : q.1 = i
    · simp [Function.comp, h1, hS.1]
    · by_cases h2 : q.1 ∈ S <;> simp [Function.comp, h1, h2]

theorem getSelected_nodup {st : GraphState} (hnd : (st.tasks.map Prod.fst).Nodup) :
    (getSelected st).Nodup :=
  List.Nodup.sublist (List.Sublist.map Prod.fst (List.filter_sublist _)) hnd

theorem mem_getSelected {st : GraphState} (hnd : (st.tasks.map Prod.fst).Nodup)
    {q : Nat × TaskElem} (hq : q ∈ st.tasks) :
    q.1 ∈ getSelected st ↔ q.2.selected = true := by
  unfold getSelected
  constructor
  · intro h
    obtain ⟨r, hr, hkey⟩ := List.mem_map.mp h
    rw [List.mem_filter] at hr
    have hrq : r = q := key_inj hnd hr.1 hq hkey
    exact hrq ▸ hr.2
  · intro h
    exact List.mem_map.mpr ⟨q, List.mem_filter.mpr ⟨hq, h⟩, rfl⟩

theorem getSelected_after_toggle (l : List (Nat × TaskElem)) :
    ((l.map (fun q =>
        if q.2.selected then (q.1, { q.2 with completed := !q.2.completed }) else q)).filter
          (fun q => q.2.selected)).map Prod.fst =
      (l.filter (fun q => q.2.selected)).map Prod.fst := by
  induction l with
  | nil => rfl
  | cons a l ih =>
    by_cases h : a.2.selected <;> simp [List.filter_cons, h, ih]

/-- Claim C10: `completeSelected` toggles the `completed` status of each
currently selected task (todo becomes completed and completed becomes
todo again), leaves unselected tasks, the selection set, and the
dependency set unchanged, and dispatches no event at all. -/
theorem completeSelected_toggles (st : GraphState)
    (hnd : (st.tasks.map Prod.fst).Nodup) :
    (completeSelected st).tasks = st.tasks.map (fun q =>
        if q.2.selected then (q.1, { q.2 with completed := !q.2.completed }) else q) ∧
    (completeSelected st).deps = st.deps ∧
    (completeSelected st).events = st.events ∧
    getSelected (completeSelected st) = getSelected st := by
  have h1 : completeSelected st =
      { st with tasks := ((getSelected st).foldl
          (fun l i => updateTask l i (fun te => { te with completed := !te.completed }))
          st.tasks) } :=
    foldl_tasksOnly _ _ _
  have htasks : (completeSelected st).tasks = st.tasks.map (fun q =>
      if q.2.selected then (q.1, { q.2 with completed := !q.2.completed }) else q) := by
    rw [h1, foldl_update_eq_map _ _ (getSelected_nodup hnd)]
    apply List.map_congr_left
    intro q hq
    by_cases hsel : q.2.selected
    · simp [(mem_getSelected hnd hq).mpr hsel, hsel]
    · have hns : q.1 ∉ getSelected st := fun hmem =>
        hsel ((mem_getSelected hnd hq).mp hmem)
      simp [hns, hsel]
  refine ⟨htasks, by rw [h1], by rw [h1], ?_⟩
  unfold getSelected
  rw [htasks, getSelected_after_toggle]

/-- A two-task state — task 0 selected, task 1 not — for the C10 witness. -/
def wst10 : GraphState :=
  { tasks := [(0, { wtask "A" with selected := true }), (1, wtask "B")],
    deps := [], nextId := 2,
    panzoom := { pan := ⟨0, 0⟩, zoom := 1 }, events := [] }

/-- Witness for C10 on a concrete two-task state with one selected task. -/
theorem completeSelected_toggles_witness :
    (completeSelected wst10).tasks = wst10.tasks.map (fun q =>
        if q.2.selected then (q.1, { q.2 with completed := !q.2.completed }) else q) ∧
    (completeSelected wst10).deps = wst10.deps ∧
    (completeSelected wst10).events = wst10.events ∧
    getSelected (completeSelected wst10) = getSelected wst10 :=
  completeSelected_toggles wst10 (by decide)

/-! ### Click and event-trace helpers -/

theorem resetSelected_parts (st : GraphState) :
    resetSelected st = { st with tasks := ((getSelected st).foldl
        (fun l i => updateTask l i (fun te => { te with selected := false }))
        st.tasks) } :=
  foldl_tasksOnly _ _ _

/-- Recognizer for `selectionchanged` events, used to count them. -/
def isSelectionChanged : Event → Bool
  | Event.selectionchanged _ => true
  | _ => false

theorem onTaskClicked_parts (task : Nat) (sk : Bool) (st : GraphState) :
    (onTaskClicked task sk st).deps = st.deps ∧
    (onTaskClicked task sk st).nextId = st.nextId ∧
    (onTaskClicked task sk st).panzoom = st.panzoom ∧
    ∃ sel, (onTaskClicked task sk st).events = st.events ++ [Event.selectionchanged sel] := by
  cases sk with
  | true =>
    exact ⟨rfl, rfl, rfl, ⟨_, rfl⟩⟩
  | false =>
    rw [onTaskClicked, if_neg Bool.false_ne_true, resetSelected_parts]
    exact ⟨rfl, rfl, rfl, ⟨_, rfl⟩⟩

theorem countP_append_single (l : List Event) (p : Event → Bool) (x : Event) :
    (l ++ [x]).countP p = l.countP p + (if p x then 1 else 0) := by
  simp [List.countP_append, List.countP_cons]

theorem count_append_single_ne (l : List Event) (e x : Event) (h : x ≠ e) :
    (l ++ [x]).count e = l.count e := by
  have : (x == e) = false := beq_eq_false_iff_ne.mpr h
  simp [List.count_append, List.count_cons, this]

theorem count_append_single_eq (l : List Event) (e : Event) :
    (l ++ [e]).count e = l.count e + 1 := by
  simp [List.count_append]

/-! ### Link-creation gestures (C3, C4) -/

theorem linkStage_parts (pressed : Nat) (sk mv : Bool) (st : GraphState) :
    ((if mv then st else onTaskClicked pressed sk st).deps = st.deps) ∧
    ((if mv then st else onTaskClicked pressed sk st).nextId = st.nextId) ∧
    ((if mv then st else onTaskClicked pressed sk st).events.count Event.newdependency =
        st.events.count Event.newdependency) ∧
    ((if mv then st else onTaskClicked pressed sk st).events.countP isSelectionChanged =
        st.events.countP isSelectionChanged + (if mv then 0 else 1)) := by
  cases mv with
  | true => simp
  | false =>
    obtain ⟨h1, h2, h3, sel, h4⟩ := onTaskClicked_parts pressed sk st
    refine ⟨by simpa using h1, by simpa using h2, ?_, ?_⟩
    · simp only [Bool.false_eq_true, if_false]
      rw [h4, count_append_single_ne _ _ _ (by simp)]
    · simp only [Bool.false_eq_true, if_false]
      rw [h4, countP_append_single]
      simp [isSelectionChanged]

/-- Claim C3 (amended): for a link gesture whose end event carries the
captured pointer id, a dependency from the pressed task to the task
element under the release point is committed and `newdependency` is
dispatched exactly once iff that element is a task — any task, including
the pressed task itself, since the source's pending `TODO Prevent a link
to itself` leaves self-links unprevented; when the release point holds
no element or a non-task element the provisional edge is discarded, the
dependency set is unchanged and no `newdependency` is dispatched. -/
theorem linkGesture_commit (env : LinkEnv) (pressed pid : Nat)
    (moves : List PointerEvent) (endEv : PointerEvent) (st : GraphState)
    (hpid : endEv.pointerId = pid) :
    (∀ t, env.hit endEv.pageX endEv.pageY = Hit.task t →
      (runLinkGesture env pressed pid moves endEv st).deps =
          st.deps ++ [(st.nextId, { fromTask := pressed, toTask := t })] ∧
        (runLinkGesture env pressed pid moves endEv st).events.count Event.newdependency =
          st.events.count Event.newdependency + 1) ∧
    (¬(∃ t, env.hit endEv.pageX endEv.pageY = Hit.task t) →
      (runLinkGesture env pressed pid moves endEv st).deps = st.deps ∧
        (runLinkGesture env pressed pid moves endEv st).events.count Event.newdependency =
          st.events.count Event.newdependency) := by
  have hne : ¬ endEv.pointerId ≠ pid := fun h => h hpid
  obtain ⟨hd, hn, hc, hp⟩ := linkStage_parts pressed endEv.shiftKey (linkMoved pid moves) st
  constructor
  · intro t ht
    simp only [runLinkGesture, onLinkPointerEnd, if_neg hne, ht]
    exact ⟨by rw [hd, hn], by rw [count_append_single_eq, hc]⟩
  · intro hno
    cases hh : env.hit endEv.pageX endEv.pageY with
    | task t => exact absurd ⟨t, hh⟩ hno
    | none =>
      simp only [runLinkGesture, onLinkPointerEnd, if_neg hne, hh]
      exact ⟨hd, hc⟩
    | other =>
      simp only [runLinkGesture, onLinkPointerEnd, if_neg hne, hh]
      exact ⟨hd, hc⟩

/-- A release hit-test that always reports the task with id 0 — the
situation of a no-drag release, where the element under the pointer is
the pressed task itself. -/
def cexHitSelf : LinkEnv := { hit := fun _ _ => Hit.task 0 }

/-- A release event for pointer id 1 at the origin. -/
def cexEndEv : PointerEvent :=
  { pointerId := 1, clientX := 0, clientY := 0, offsetX := 0, offsetY := 0,
    pageX := 0, pageY := 0, shiftKey := false }

/-- A one-task state (task id 0, no dependencies) for gesture instances. -/
def cexLinkState : GraphState :=
  { tasks := [(0, wtask "A")], deps := [], nextId := 1,
    panzoom := { pan := ⟨0, 0⟩, zoom := 1 }, events := [] }

/-- Counterexample to claim C3 as stated: releasing a link gesture over
the pressed task itself (the hit-test reports task 0, which is the
pressed task) does not discard the provisional edge — a self-loop
dependency 0 → 0 is committed. -/
theorem linkGesture_commit_cex :
    cexHitSelf.hit cexEndEv.pageX cexEndEv.pageY = Hit.task 0 ∧
    (runLinkGesture cexHitSelf 0 1 [] cexEndEv cexLinkState).deps =
      [(1, { fromTask := 0, toTask := 0 })] := by
  exact ⟨rfl, by decide⟩

/-- A release hit-test that always reports task 1. -/
def cexHitOther : LinkEnv := { hit := fun _ _ => Hit.task 1 }

/-- A two-task state (ids 0 and 1) for gesture instances. -/
def cexLinkState2 : GraphState :=
  { tasks := [(0, wtask "A"), (1, wtask "B")], deps := [], nextId := 2,
    panzoom := { pan := ⟨0, 0⟩, zoom := 1 }, events := [] }

/-- A release event for pointer id 7. -/
def cexEndEv7 : PointerEvent := { cexEndEv with pointerId := 7 }

/-- Witness for C3's amended theorem: releasing over task 1 after
pressing task 0 commits exactly the edge 0 → 1 and dispatches one
`newdependency`. -/
theorem linkGesture_commit_witness :
    (runLinkGesture cexHitOther 0 7 [] cexEndEv7 cexLinkState2).deps =
        cexLinkState2.deps ++ [(cexLinkState2.nextId, { fromTask := 0, toTask := 1 })] ∧
      (runLinkGesture cexHitOther 0 7 [] cexEndEv7 cexLinkState2).events.count
          Event.newdependency =
        cexLinkState2.events.count Event.newdependency + 1 :=
  (linkGesture_commit cexHitOther 0 7 [] cexEndEv7 cexLinkState2 rfl).1 1 rfl

/-- Claim C4 (amended): in the link branch the 5-unit movement threshold
is never consulted — the branch's `onPointerMove` sets the `moved` flag
on every delivered move event.  A gesture with no delivered move events
resolves to a selection-toggle click (one `selectionchanged` is
dispatched), but even so the commit logic still runs: if the element
under the release point is a task, a dependency is committed in addition
to the click.  Conversely any delivered move event, however small,
suppresses the click. -/
theorem linkGesture_click (env : LinkEnv) (pressed pid : Nat)
    (moves : List PointerEvent) (endEv : PointerEvent) (st : GraphState)
    (hpid : endEv.pointerId = pid) :
    (moves = [] →
      (runLinkGesture env pressed pid moves endEv st).events.countP isSelectionChanged =
        st.events.countP isSelectionChanged + 1) ∧
    (linkMoved pid moves = true →
      (runLinkGesture env pressed pid moves endEv st).events.countP isSelectionChanged =
        st.events.countP isSelectionChanged) ∧
    (∀ t, env.hit endEv.pageX endEv.pageY = Hit.task t →
      (runLinkGesture env pressed pid moves endEv st).deps =
        st.deps ++ [(st.nextId, { fromTask := pressed, toTask := t })]) := by
  have hne : ¬ endEv.pointerId ≠ pid := fun h => h hpid
  obtain ⟨hd, hn, hc, hp⟩ := linkStage_parts pressed endEv.shiftKey (linkMoved pid moves) st
  have hcount : (runLinkGesture env pressed pid moves endEv st).events.countP
      isSelectionChanged =
      st.events.countP isSelectionChanged + (if linkMoved pid moves then 0 else 1) := by
    cases hh : env.hit endEv.pageX endEv.pageY with
    | task t =>
      simp only [runLinkGesture, onLinkPointerEnd, if_neg hne, hh]
      rw [countP_append_single, hp]
      simp [isSelectionChanged]
    | none =>
      simp only [runLinkGesture, onLinkPointerEnd, if_neg hne, hh]
      exact hp
    | other =>
      simp only [runLinkGesture, onLinkPointerEnd, if_neg hne, hh]
      exact hp
  refine ⟨?_, ?_, ?_⟩
  · intro h
    subst h
    simpa [linkMoved] using hcount
  · intro h
    rw [h] at hcount
    simpa using hcount
  · intro t ht
    simp only [runLinkGesture, onLinkPointerEnd, if_neg hne, ht]
    rw [hd, hn]

/-- Counterexample to claim C4 as stated: a link-branch gesture with no
move events at all — thus never exceeding the 5-unit threshold — that is
released over the pressed task both toggles the selection (one
`selectionchanged`) and commits a dependency with one `newdependency`,
instead of resolving to a selection toggle only. -/
theorem linkGesture_click_cex :
    (runLinkGesture cexHitSelf 0 1 [] cexEndEv cexLinkState).events.countP
        isSelectionChanged = 1 ∧
    (runLinkGesture cexHitSelf 0 1 [] cexEndEv cexLinkState).events.count
        Event.newdependency = 1 ∧
    (runLinkGesture cexHitSelf 0 1 [] cexEndEv cexLinkState).deps.length = 1 := by
  decide

/-- A release hit-test that reports no element under the point. -/
def cexHitNone : LinkEnv := { hit := fun _ _ => Hit.none }

/-- Witness for C4's amended theorem: a no-move link gesture over empty
canvas dispatches exactly one `selectionchanged`; a no-move link gesture
released over task 1 also commits the edge 0 → 1. -/
theorem linkGesture_click_witness :
    (runLinkGesture cexHitNone 0 1 [] cexEndEv cexLinkState).events.countP
        isSelectionChanged =
      cexLinkState.events.countP isSelectionChanged + 1 ∧
    (runLinkGesture cexHitOther 0 7 [] cexEndEv7 cexLinkState2).deps =
      cexLinkState2.deps ++ [(cexLinkState2.nextId, { fromTask := 0, toTask := 1 })] :=
  ⟨(linkGesture_click cexHitNone 0 1 [] cexEndEv cexLinkState rfl).1 rfl,
   (linkGesture_click cexHitOther 0 7 [] cexEndEv7 cexLinkState2 rfl).2.2 1 rfl⟩

/-! ### Task-drag gestures (C5, C6) -/

theorem lookup?_map_pos_updateTask (l : List (Nat × TaskElem)) (i : Nat)
    (f : TaskElem → TaskElem) (h : ∀ te, (f te).pos = te.pos) (j : Nat) :
    (lookup? (updateTask l i f) j).map TaskElem.pos =
      (lookup? l j).map TaskElem.pos := by
  rw [lookup?_updateTask]
  by_cases hj : j = i
  · rw [if_pos hj]
    cases lookup? l j <;> simp [h]
  · rw [if_neg hj]

theorem lookup?_map_pos_foldUpdate (f : TaskElem → TaskElem)
    (h : ∀ te, (f te).pos = te.pos) (S : List Nat) :
    ∀ (l : List (Nat × TaskElem)) (j : Nat),
      (lookup? (S.foldl (fun acc i => updateTask acc i f) l) j).map TaskElem.pos =
        (lookup? l j).map TaskElem.pos := by
  induction S with
  | nil =>
    intro l j
    rfl
  | cons i S ih =>
    intro l j
    rw [List.foldl_cons, ih, lookup?_map_pos_updateTask _ _ _ h]

theorem getLast?_cons_elim {α β : Type _} (f : α → β) :
    ∀ (l : List α) (a : α) (d : β),
      ((a :: l).getLast?).elim d f = (l.getLast?).elim (f a) f := by
  intro l
  induction l with
  | nil =>
    intro a d
    rfl
  | cons b l ih =>
    intro a d
    rw [List.getLast?_cons_cons, ih b d, ih b (f a)]

theorem onTaskClicked_pos (task : Nat) (sk : Bool) (s : GraphState) (j : Nat) :
    (lookup? (onTaskClicked task sk s).tasks j).map TaskElem.pos =
      (lookup? s.tasks j).map TaskElem.pos := by
  cases sk with
  | true =>
    show (lookup? (updateTask s.tasks task
        (fun te => { te with selected := !te.selected })) j).map TaskElem.pos = _
    exact lookup?_map_pos_updateTask s.tasks task
      (fun te => { te with selected := !te.selected }) (fun te => rfl) j
  | false =>
    rw [onTaskClicked, if_neg Bool.false_ne_true, resetSelected_parts]
    show (lookup? (updateTask ((getSelected s).foldl
        (fun l i => updateTask l i (fun te => { te with selected := false })) s.tasks)
        task (fun te => { te with selected := true })) j).map TaskElem.pos = _
    rw [lookup?_map_pos_updateTask _ task
      (fun te => { te with selected := true }) (fun te => rfl)]
    exact lookup?_map_pos_foldUpdate
      (fun te => { te with selected := false }) (fun te => rfl) _ _ j

theorem foldl_dragMove_parts (pressed pid : Nat) (off : Point)
    (moves : List PointerEvent) :
    ∀ (st : GraphState),
      ((moves.foldl (dragMoveStep pressed pid off) st).events = st.events) ∧
      ((moves.foldl (dragMoveStep pressed pid off) st).deps = st.deps) ∧
      ((moves.foldl (dragMoveStep pressed pid off) st).nextId = st.nextId) ∧
      ((moves.foldl (dragMoveStep pressed pid off) st).panzoom = st.panzoom) := by
  induction moves with
  | nil => exact fun st => ⟨rfl, rfl, rfl, rfl⟩
  | cons m ms ih =>
    intro st
    rw [List.foldl_cons]
    have hstep : (dragMoveStep pressed pid off st m).events = st.events ∧
        (dragMoveStep pressed pid off st m).deps = st.deps ∧
        (dragMoveStep pressed pid off st m).nextId = st.nextId ∧
        (dragMoveStep pressed pid off st m).panzoom = st.panzoom := by
      unfold dragMoveStep moveTask
      split
      · exact ⟨rfl, rfl, rfl, rfl⟩
      · exact ⟨rfl, rfl, rfl, rfl⟩
    obtain ⟨e1, d1, n1, p1⟩ := ih (dragMoveStep pressed pid off st m)
    exact ⟨e1.trans hstep.1, d1.trans hstep.2.1, n1.trans hstep.2.2.1,
      p1.trans hstep.2.2.2⟩

theorem dragMoved_iff (pid : Nat) (initial : Point) (moves : List PointerEvent) :
    dragMoved pid initial moves = true ↔
      ∃ m ∈ moves, m.pointerId = pid ∧
        squaredDistance initial ⟨m.clientX, m.clientY⟩ > 25 := by
  simp [dragMoved, List.any_eq_true, Bool.and_eq_true, beq_iff_eq,
    decide_eq_true_eq]

theorem onDragPointerEnd_events (pressed pid : Nat) (initial : Point)
    (moves : List PointerEvent) (endEv : PointerEvent) (st1 : GraphState)
    (hpid : endEv.pointerId = pid) :
    (dragMoved pid initial moves = true →
      (onDragPointerEnd pressed pid initial moves endEv st1).events =
        st1.events ++ [Event.taskmoved pressed]) ∧
    (dragMoved pid initial moves = false →
      ∃ sel, (onDragPointerEnd pressed pid initial moves endEv st1).events =
        st1.events ++ [Event.selectionchanged sel]) := by
  have hne : ¬ endEv.pointerId ≠ pid := fun h => h hpid
  constructor
  · intro hm
    rw [onDragPointerEnd, if_neg hne, if_pos hm]
  · intro hm
    rw [onDragPointerEnd, if_neg hne,
      if_neg (fun h => Bool.false_ne_true (hm ▸ h))]
    obtain ⟨h1, h2, h3, sel, h4⟩ := onTaskClicked_parts pressed endEv.shiftKey
      { st1 with tasks := updateTask st1.tasks pressed (fun te => { te with dragged := false }) }
    exact ⟨sel, h4⟩

theorem onDragPointerEnd_pos (pressed pid : Nat) (initial : Point)
    (moves : List PointerEvent) (endEv : PointerEvent) (st1 : GraphState) (j : Nat) :
    (lookup? (onDragPointerEnd pressed pid initial moves endEv st1).tasks j).map
        TaskElem.pos =
      (lookup? st1.tasks j).map TaskElem.pos := by
  rw [onDragPointerEnd]
  by_cases hend : endEv.pointerId ≠ pid
  · rw [if_pos hend]
  · rw [if_neg hend]
    by_cases hm : dragMoved pid initial moves = true
    · rw [if_pos hm]
      show (lookup? (updateTask st1.tasks pressed
          (fun te => { te with dragged := false })) j).map TaskElem.pos = _
      exact lookup?_map_pos_updateTask st1.tasks pressed
        (fun te => { te with dragged := false }) (fun te => rfl) j
    · rw [if_neg hm]
      rw [onTaskClicked_pos]
      show (lookup? (updateTask st1.tasks pressed
          (fun te => { te with dragged := false })) j).map TaskElem.pos = _
      exact lookup?_map_pos_updateTask st1.tasks pressed
        (fun te => { te with dragged := false }) (fun te => rfl) j

theorem foldl_dragMove_pos (pressed pid : Nat) (off : Point) :
    ∀ (moves : List PointerEvent) (s : GraphState) (u : TaskElem),
      lookup? s.tasks pressed = some u →
      (lookup? ((moves.foldl (dragMoveStep pressed pid off) s)).tasks pressed).map
          TaskElem.pos =
        some (((moves.filter (fun m => m.pointerId == pid)).getLast?).elim u.pos
          (fun m => ⟨m.offsetX - off.x, m.offsetY - off.y⟩)) := by
  intro moves
  induction moves with
  | nil =>
    intro s u hu
    rw [List.foldl_nil, hu]
    rfl
  | cons m ms ih =>
    intro s u hu
    rw [List.foldl_cons]
    cases hmp : (m.pointerId == pid) with
    | false =>
      have hstep : dragMoveStep pressed pid off s m = s := by
        unfold dragMoveStep
        rw [if_neg (by rw [hmp]; exact Bool.false_ne_true)]
      rw [hstep, List.filter_cons, hmp]
      exact ih s u hu
    | true =>
      have hstep : dragMoveStep pressed pid off s m =
          moveTask s pressed ⟨m.offsetX - off.x, m.offsetY - off.y⟩ := by
        unfold dragMoveStep
        rw [if_pos hmp]
      have hu1 : lookup? (moveTask s pressed ⟨m.offsetX - off.x, m.offsetY - off.y⟩).tasks
          pressed = some { u with pos := ⟨m.offsetX - off.x, m.offsetY - off.y⟩ } := by
        show lookup? (updateTask s.tasks pressed
            (fun te => { te with pos := ⟨m.offsetX - off.x, m.offsetY - off.y⟩ })) pressed = _
        rw [lookup?_updateTask, if_pos rfl, hu]
        rfl
      rw [hstep] at *
      rw [ih _ _ hu1, List.filter_cons, hmp, if_pos rfl, getLast?_cons_elim]

/-- Claim C5: on release of a task-drag gesture (end event on the
captured pointer id), exactly one `taskmoved` event is dispatched — and
nothing else — iff some delivered move's squared client-distance from
the initial pointer position exceeded 25, the square of the 5-unit
threshold; otherwise no `taskmoved` is dispatched and the gesture
resolves to a selection-toggle click, dispatching one
`selectionchanged`. -/
theorem dragGesture_taskmoved (pressed : Nat) (pressEv : PointerEvent)
    (moves : List PointerEvent) (endEv : PointerEvent) (st : GraphState)
    (hpid : endEv.pointerId = pressEv.pointerId) :
    ((∃ m ∈ moves, m.pointerId = pressEv.pointerId ∧
        squaredDistance ⟨pressEv.clientX, pressEv.clientY⟩ ⟨m.clientX, m.clientY⟩ > 25) →
      (runDragGesture pressed pressEv moves endEv st).events =
        st.events ++ [Event.taskmoved pressed]) ∧
    ((¬∃ m ∈ moves, m.pointerId = pressEv.pointerId ∧
        squaredDistance ⟨pressEv.clientX, pressEv.clientY⟩ ⟨m.clientX, m.clientY⟩ > 25) →
      (runDragGesture pressed pressEv moves endEv st).events.count
          (Event.taskmoved pressed) =
        st.events.count (Event.taskmoved pressed) ∧
      (runDragGesture pressed pressEv moves endEv st).events.countP isSelectionChanged =
        st.events.countP isSelectionChanged + 1) := by
  constructor
  · intro hex
    have hm : dragMoved pressEv.pointerId ⟨pressEv.clientX, pressEv.clientY⟩ moves = true :=
      (dragMoved_iff _ _ _).mpr hex
    simp only [runDragGesture]
    rw [(onDragPointerEnd_events pressed pressEv.pointerId
      ⟨pressEv.clientX, pressEv.clientY⟩ moves endEv _ hpid).1 hm]
    rw [(foldl_dragMove_parts pressed pressEv.pointerId
      ⟨pressEv.offsetX, pressEv.offsetY⟩ moves _).1]
  · intro hnex
    have hm : dragMoved pressEv.pointerId ⟨pressEv.clientX, pressEv.clientY⟩ moves = false :=
      Bool.eq_false_iff.mpr (fun h => hnex ((dragMoved_iff _ _ _).mp h))
    simp only [runDragGesture]
    obtain ⟨sel, hev⟩ := (onDragPointerEnd_events pressed pressEv.pointerId
      ⟨pressEv.clientX, pressEv.clientY⟩ moves endEv
      (moves.foldl (dragMoveStep pressed pressEv.pointerId ⟨pressEv.offsetX, pressEv.offsetY⟩)
        { st with tasks := updateTask st.tasks pressed (fun te => { te with dragged := true }) })
      hpid).2 hm
    rw [hev]
    rw [(foldl_dragMove_parts pressed pressEv.pointerId
      ⟨pressEv.offsetX, pressEv.offsetY⟩ moves _).1]
    constructor
    · rw [count_append_single_ne _ _ _ (by simp)]
    · rw [countP_append_single]
      simp [isSelectionChanged]

/-- Press event for pointer id 2 at client origin with press-point
offset (2, 2) inside the task. -/
def cexPress : PointerEvent :=
  { pointerId := 2, clientX := 0, clientY := 0, offsetX := 2, offsetY := 2,
    pageX := 0, pageY := 0, shiftKey := false }

/-- A small move for pointer 2: client distance 3 (below the 5-unit
threshold), offset position (10, 10). -/
def cexSmallMove : PointerEvent :=
  { pointerId := 2, clientX := 3, clientY := 0, offsetX := 10, offsetY := 10,
    pageX := 3, pageY := 0, shiftKey := false }

/-- A large move for pointer 2: client distance 10 (over the threshold). -/
def cexBigMove : PointerEvent :=
  { pointerId := 2, clientX := 10, clientY := 0, offsetX := 20, offsetY := 5,
    pageX := 10, pageY := 0, shiftKey := false }

/-- Release event for pointer id 2. -/
def cexEnd2 : PointerEvent := { cexEndEv with pointerId := 2 }

/-- Witness for C5 at concrete gestures: a 10-unit drag dispatches
exactly `taskmoved`; a 3-unit drag dispatches no `taskmoved` and one
`selectionchanged`. -/
theorem dragGesture_taskmoved_witness :
    ((runDragGesture 0 cexPress [cexBigMove] cexEnd2 cexLinkState).events =
      cexLinkState.events ++ [Event.taskmoved 0]) ∧
    ((runDragGesture 0 cexPress [cexSmallMove] cexEnd2 cexLinkState).events.count
        (Event.taskmoved 0) = cexLinkState.events.count (Event.taskmoved 0) ∧
      (runDragGesture 0 cexPress [cexSmallMove] cexEnd2 cexLinkState).events.countP
        isSelectionChanged = cexLinkState.events.countP isSelectionChanged + 1) :=
  ⟨(dragGesture_taskmoved 0 cexPress [cexBigMove] cexEnd2 cexLinkState rfl).1
      ⟨cexBigMove, by decide, by decide, by
        show (25 : ℚ) < squaredDistance ⟨cexPress.clientX, cexPress.clientY⟩
          ⟨cexBigMove.clientX, cexBigMove.clientY⟩
        norm_num [squaredDistance, cexPress, cexBigMove]⟩,
   (dragGesture_taskmoved 0 cexPress [cexSmallMove] cexEnd2 cexLinkState rfl).2
      (by
        rintro ⟨m, hm, hp, hsq⟩
        rw [List.mem_singleton] at hm
        subst hm
        revert hsq
        show ¬ (25 : ℚ) < squaredDistance ⟨cexPress.clientX, cexPress.clientY⟩
          ⟨cexSmallMove.clientX, cexSmallMove.clientY⟩
        norm_num [squaredDistance, cexPress, cexSmallMove])⟩

/-- Claim C6 (amended): during a task-drag gesture every delivered move
event repositions the task, preserving the press-point offset under the
cursor — the new position is the move's offset position minus the
press-point offset — and the 25 squared-distance threshold plays no role
in repositioning (it only drives the `moved` flag and hence the
`taskmoved` event): after the gesture the task's position is determined
by the last delivered move event, below or above the threshold alike,
and only a gesture with no delivered move events leaves the task at its
original position. -/
theorem dragGesture_position (pressed : Nat) (pressEv : PointerEvent)
    (moves : List PointerEvent) (endEv : PointerEvent) (st : GraphState)
    (u : TaskElem) (hu : lookup? st.tasks pressed = some u) :
    (lookup? (runDragGesture pressed pressEv moves endEv st).tasks pressed).map
        TaskElem.pos =
      some (((moves.filter (fun m => m.pointerId == pressEv.pointerId)).getLast?).elim u.pos
        (fun m => ⟨m.offsetX - pressEv.offsetX, m.offsetY - pressEv.offsetY⟩)) := by
  simp only [runDragGesture]
  rw [onDragPointerEnd_pos]
  have hu0 : lookup? ({ st with tasks := updateTask st.tasks pressed (fun te => { te with dragged := true }) } : GraphState).tasks pressed =
      some { u with dragged := true } := by
    show lookup? (updateTask st.tasks pressed (fun te => { te with dragged := true }))
      pressed = _
    rw [lookup?_updateTask, if_pos rfl, hu]
    rfl
  exact foldl_dragMove_pos pressed pressEv.pointerId ⟨pressEv.offsetX, pressEv.offsetY⟩
    moves _ { u with dragged := true } hu0

/-- Counterexample to claim C6 as stated: a single move of client
distance 3 — squared distance 9, below the 25 threshold — still
repositions the task: it moves from (0, 0) to (8, 8) (the move's offset
position (10, 10) minus the press offset (2, 2)), rather than staying at
its original position. -/
theorem dragGesture_position_cex :
    squaredDistance ⟨cexPress.clientX, cexPress.clientY⟩
        ⟨cexSmallMove.clientX, cexSmallMove.clientY⟩ ≤ 25 ∧
    (lookup? (runDragGesture 0 cexPress [cexSmallMove] cexEnd2 cexLinkState).tasks 0).map
        TaskElem.pos = some ⟨8, 8⟩ ∧
    (wtask "A").pos = ⟨0, 0⟩ ∧ (⟨8, 8⟩ : Point) ≠ ⟨0, 0⟩ := by
  refine ⟨?_, ?_, rfl, by decide⟩
  · norm_num [squaredDistance, cexPress, cexSmallMove]
  · simp only [runDragGesture]
    rw [onDragPointerEnd_pos]
    rw [foldl_dragMove_pos 0 cexPress.pointerId ⟨cexPress.offsetX, cexPress.offsetY⟩
      [cexSmallMove]
      { cexLinkState with
        tasks := updateTask cexLinkState.tasks 0 (fun te => { te with dragged := true }) }
      { wtask "A" with dragged := true } rfl]
    show some ((([cexSmallMove].filter
        (fun m => m.pointerId == cexPress.pointerId)).getLast?).elim
        ({ wtask "A" with dragged := true } : TaskElem).pos
        (fun m => ⟨m.offsetX - cexPress.offsetX, m.offsetY - cexPress.offsetY⟩)) =
      some (⟨8, 8⟩ : Point)
    norm_num [cexSmallMove, cexPress, List.filter]

/-- Witness for C6's amended theorem at a concrete gesture: the final
position equals the last delivered move's offset position minus the
press offset. -/
theorem dragGesture_position_witness :
    (lookup? (runDragGesture 0 cexPress [cexSmallMove] cexEnd2 cexLinkState).tasks 0).map
        TaskElem.pos =
      some ((([cexSmallMove].filter (fun m => m.pointerId == cexPress.pointerId)).getLast?).elim
        (wtask "A").pos
        (fun m => ⟨m.offsetX - cexPress.offsetX, m.offsetY - cexPress.offsetY⟩)) :=
  dragGesture_position 0 cexPress [cexSmallMove] cexEnd2 cexLinkState (wtask "A") rfl

/-! ### Serialization round trip (C2) -/

/-- The task elements `loadGraph` creates for a document's task list,
with identities starting at `n`. -/
def loadElems (n : Nat) : List DocTask → List (Nat × TaskElem)
  | [] => []
  | t :: ts =>
    (n, { name := t.name,
          completed := match t.status with
            | Status.completed => true
            | Status.todo => false,
          selected := false, dragged := false, pos := t.pos,
          fromList := [], toList := [] }) :: loadElems (n + 1) ts

theorem loadTasks_fold (env : Env) :
    ∀ (ts : List DocTask) (s : GraphState),
      ((ts.foldl (fun s t => addTask env s
          { name := t.name, status := some t.status, pos := some t.pos }) s).tasks =
        s.tasks ++ loadElems s.nextId ts) ∧
      ((ts.foldl (fun s t => addTask env s
          { name := t.name, status := some t.status, pos := some t.pos }) s).deps =
        s.deps) ∧
      ((ts.foldl (fun s t => addTask env s
          { name := t.name, status := some t.status, pos := some t.pos }) s).nextId =
        s.nextId + ts.length) := by
  intro ts
  induction ts with
  | nil =>
    intro s
    exact ⟨by simp [loadElems], rfl, rfl⟩
  | cons t ts ih =>
    intro s
    obtain ⟨tn, tp, tst⟩ := t
    rw [List.foldl_cons]
    obtain ⟨h1, h2, h3⟩ := ih (addTask env s
      { name := tn, status := some tst, pos := some tp })
    refine ⟨?_, h2, ?_⟩
    · rw [h1]
      cases tst <;>
        · show (s.tasks ++ [(s.nextId, _)]) ++ loadElems (s.nextId + 1) ts = _
          rw [List.append_assoc]
          rfl
    · rw [h3]
      show s.nextId + 1 + ts.length = s.nextId + (ts.length + 1)
      omega

theorem loadElems_names : ∀ (ts : List DocTask) (n : Nat),
    (loadElems n ts).map (fun q => q.2.name) = ts.map DocTask.name := by
  intro ts
  induction ts with
  | nil =>
    intro n
    rfl
  | cons t ts ih =>
    intro n
    simp [loadElems, ih]

theorem loadElems_keys_lb : ∀ (ts : List DocTask) (n k : Nat),
    k ∈ (loadElems n ts).map Prod.fst → n ≤ k := by
  intro ts
  induction ts with
  | nil =>
    intro n k h
    simp [loadElems] at h
  | cons t ts ih =>
    intro n k h
    rw [loadElems, List.map_cons, List.mem_cons] at h
    rcases h with h | h
    · omega
    · have := ih (n + 1) k h
      omega

theorem loadElems_keys_nodup : ∀ (ts : List DocTask) (n : Nat),
    ((loadElems n ts).map Prod.fst).Nodup := by
  intro ts
  induction ts with
  | nil =>
    intro n
    simp [loadElems]
  | cons t ts ih =>
    intro n
    rw [loadElems, List.map_cons, List.nodup_cons]
    refine ⟨fun hmem => ?_, ih (n + 1)⟩
    have := loadElems_keys_lb ts (n + 1) n hmem
    omega

theorem loadElems_getTasks : ∀ (ts : List DocTask) (n : Nat),
    (loadElems n ts).map (fun q =>
      ({ name := q.2.name, pos := q.2.pos,
         status := if q.2.completed then Status.completed else Status.todo } : DocTask)) =
      ts := by
  intro ts
  induction ts with
  | nil =>
    intro n
    rfl
  | cons t ts ih =>
    intro n
    obtain ⟨tn, tp, tst⟩ := t
    cases tst <;> simp [loadElems, ih]

/-- The serialization-relevant part of a task element: identity, name,
completion, position (adjacency stripped). -/
def stripTask (q : Nat × TaskElem) : Nat × String × Bool × Point :=
  (q.1, q.2.name, q.2.completed, q.2.pos)

theorem updateTask_strip (l : List (Nat × TaskElem)) (i : Nat) (f : TaskElem → TaskElem)
    (hf : ∀ te, (f te).name = te.name ∧ (f te).completed = te.completed ∧
      (f te).pos = te.pos) :
    (updateTask l i f).map stripTask = l.map stripTask := by
  unfold updateTask
  rw [List.map_map]
  apply List.map_congr_left
  intro q hq
  by_cases h : q.1 = i
  · simp [Function.comp, stripTask, h, (hf q.2).1, (hf q.2).2.1, (hf q.2).2.2]
  · simp [Function.comp, stripTask, h]

theorem names_of_strip {l l' : List (Nat × TaskElem)}
    (h : l'.map stripTask = l.map stripTask) :
    l'.map (fun q => q.2.name) = l.map (fun q => q.2.name) := by
  have h2 := congrArg (List.map (fun r : Nat × String × Bool × Point => r.2.1)) h
  rw [List.map_map, List.map_map] at h2
  exact h2

theorem keys_of_strip {l l' : List (Nat × TaskElem)}
    (h : l'.map stripTask = l.map stripTask) :
    l'.map Prod.fst = l.map Prod.fst := by
  have h2 := congrArg (List.map (fun r : Nat × String × Bool × Point => r.1)) h
  rw [List.map_map, List.map_map] at h2
  exact h2

theorem taskNameOf_congr : ∀ (l l' : List (Nat × TaskElem)),
    l'.map stripTask = l.map stripTask → ∀ u, taskNameOf l' u = taskNameOf l u := by
  intro l
  induction l with
  | nil =>
    intro l' h u
    cases l' with
    | nil => rfl
    | cons b l2 => simp at h
  | cons a l ih =>
    intro l' h u
    cases l' with
    | nil => simp at h
    | cons b l2 =>
      obtain ⟨k, v⟩ := a
      obtain ⟨k2, v2⟩ := b
      rw [List.map_cons, List.map_cons] at h
      simp only [List.cons.injEq, stripTask, Prod.mk.injEq] at h
      obtain ⟨⟨hk, hn, _, _⟩, ht⟩ := h
      subst hk
      unfold taskNameOf
      rw [lookup?_cons, lookup?_cons]
      by_cases hu : k2 = u
      · rw [if_pos hu, if_pos hu]
        simp [hn]
      · rw [if_neg hu, if_neg hu]
        exact ih l2 ht u

theorem addDependency_resolved (s : GraphState) (dep : DocDep)
    (hk : (s.tasks.map Prod.fst).Nodup)
    (hp : dep.predecessor ∈ s.tasks.map (fun q => q.2.name))
    (hs : dep.successor ∈ s.tasks.map (fun q => q.2.name)) :
    ((addDependency s dep).1.tasks.map stripTask = s.tasks.map stripTask) ∧
    (∃ p t : Nat,
      (addDependency s dep).1.deps =
        s.deps ++ [(s.nextId, { fromTask := p, toTask := t })] ∧
      taskNameOf s.tasks p = dep.predecessor ∧
      taskNameOf s.tasks t = dep.successor) := by
  cases hfp : findTaskByName s.tasks dep.predecessor with
  | none =>
    exfalso
    obtain ⟨q, hq, hqn⟩ := List.mem_map.mp hp
    have := List.find?_eq_none.mp hfp q hq
    simp [hqn] at this
  | some p =>
    cases hfs : findTaskByName s.tasks dep.successor with
    | none =>
      exfalso
      obtain ⟨q, hq, hqn⟩ := List.mem_map.mp hs
      have := List.find?_eq_none.mp hfs q hq
      simp [hqn] at this
    | some t =>
      have hpmem : p ∈ s.tasks := List.mem_of_find?_eq_some hfp
      have htmem : t ∈ s.tasks := List.mem_of_find?_eq_some hfs
      have hpname : p.2.name = dep.predecessor := by
        have := List.find?_some hfp
        simpa using this
      have htname : t.2.name = dep.successor := by
        have := List.find?_some hfs
        simpa using this
      have hplook : taskNameOf s.tasks p.1 = dep.predecessor := by
        unfold taskNameOf
        rw [lookup?_eq_some_of_mem hk hpmem]
        exact hpname
      have htlook : taskNameOf s.tasks t.1 = dep.successor := by
        unfold taskNameOf
        rw [lookup?_eq_some_of_mem hk htmem]
        exact htname
      have hadd : (addDependency s dep).1 = { s with
          tasks := updateTask (updateTask s.tasks p.1
              (fun te => { te with fromList := te.fromList ++ [s.nextId] }))
            t.1 (fun te => { te with toList := te.toList ++ [s.nextId] }),
          deps := s.deps ++ [(s.nextId, { fromTask := p.1, toTask := t.1 })],
          nextId := s.nextId + 1 } := by
        simp only [addDependency, hfp, hfs]
      constructor
      · rw [hadd]
        show (updateTask (updateTask s.tasks p.1
            (fun te => { te with fromList := te.fromList ++ [s.nextId] }))
            t.1 (fun te => { te with toList := te.toList ++ [s.nextId] })).map stripTask = _
        rw [updateTask_strip _ t.1
            (fun te => { te with toList := te.toList ++ [s.nextId] })
            (fun te => ⟨rfl, rfl, rfl⟩),
          updateTask_strip _ p.1
            (fun te => { te with fromList := te.fromList ++ [s.nextId] })
            (fun te => ⟨rfl, rfl, rfl⟩)]
      · exact ⟨p.1, t.1, by rw [hadd], hplook, htlook⟩

theorem loadDeps_fold : ∀ (L : List DocDep) (s : GraphState),
    (s.tasks.map Prod.fst).Nodup →
    (∀ dep ∈ L, dep.predecessor ∈ s.tasks.map (fun q => q.2.name) ∧
                dep.successor ∈ s.tasks.map (fun q => q.2.name)) →
    ((L.foldl (fun s d => (addDependency s d).1) s).tasks.map stripTask =
      s.tasks.map stripTask) ∧
    ((L.foldl (fun s d => (addDependency s d).1) s).deps.map (fun q =>
        ({ predecessor := taskNameOf
              (L.foldl (fun s d => (addDependency s d).1) s).tasks q.2.fromTask,
           successor := taskNameOf
              (L.foldl (fun s d => (addDependency s d).1) s).tasks q.2.toTask } : DocDep)) =
      s.deps.map (fun q =>
        ({ predecessor := taskNameOf s.tasks q.2.fromTask,
           successor := taskNameOf s.tasks q.2.toTask } : DocDep)) ++ L) := by
  intro L
  induction L with
  | nil =>
    intro s _ _
    exact ⟨rfl, by simp⟩
  | cons dep L ih =>
    intro s hk hres
    obtain ⟨hstrip, p, t, hdeps, hpn, htn⟩ :=
      addDependency_resolved s dep hk (hres dep (List.mem_cons_self _ _)).1
        (hres dep (List.mem_cons_self _ _)).2
    have hk1 : ((addDependency s dep).1.tasks.map Prod.fst).Nodup := by
      rw [keys_of_strip hstrip]
      exact hk
    have hres1 : ∀ d2 ∈ L,
        d2.predecessor ∈ (addDependency s dep).1.tasks.map (fun q => q.2.name) ∧
        d2.successor ∈ (addDependency s dep).1.tasks.map (fun q => q.2.name) := by
      intro d2 hd2
      rw [names_of_strip hstrip]
      exact hres d2 (List.mem_cons_of_mem _ hd2)
    obtain ⟨ih1, ih2⟩ := ih (addDependency s dep).1 hk1 hres1
    rw [List.foldl_cons]
    constructor
    · rw [ih1, hstrip]
    · rw [ih2]
      have hname2 : ∀ u, taskNameOf (addDependency s dep).1.tasks u =
          taskNameOf s.tasks u := taskNameOf_congr _ _ hstrip
      rw [hdeps, List.map_append, List.append_assoc]
      simp only [List.map_cons, List.map_nil, hname2, hpn, htn, List.singleton_append]

/-- Claim C2 (amended): for every document `d` whose task names are
unique and whose dependencies' endpoint names all occur among `d`'s task
names, loading `d` and serializing again reproduces `d` exactly — the
same task array (name, position, status, in document order) and the same
dependency array — and hence in particular the same sets up to array
ordering.  Without the endpoint condition the round trip fails: a
dependency naming an absent task is skipped by `addDependency` during
the load and is missing from the serialized output. -/
theorem loadGraph_getGraph (env : Env) (st : GraphState) (d : GraphDoc)
    (hnames : (d.tasks.map DocTask.name).Nodup)
    (hres : ∀ dep ∈ d.dependencies,
      dep.predecessor ∈ d.tasks.map DocTask.name ∧
      dep.successor ∈ d.tasks.map DocTask.name) :
    getGraph (loadGraph env st d) =
      { tasks := d.tasks, dependencies := d.dependencies } := by
  have hload : loadGraph env st d =
      d.dependencies.foldl (fun s x => (addDependency s x).1)
        (d.tasks.foldl (fun s t => addTask env s
          { name := t.name, status := some t.status, pos := some t.pos })
          (clearGraph st)) := rfl
  obtain ⟨ht, hd, hn⟩ := loadTasks_fold env d.tasks (clearGraph st)
  have ht1 : (d.tasks.foldl (fun s t => addTask env s
      { name := t.name, status := some t.status, pos := some t.pos })
      (clearGraph st)).tasks = loadElems st.nextId d.tasks := by
    rw [ht]
    rfl
  have hd1 : (d.tasks.foldl (fun s t => addTask env s
      { name := t.name, status := some t.status, pos := some t.pos })
      (clearGraph st)).deps = [] := by
    rw [hd]
    rfl
  have hk1 : ((d.tasks.foldl (fun s t => addTask env s
      { name := t.name, status := some t.status, pos := some t.pos })
      (clearGraph st)).tasks.map Prod.fst).Nodup := by
    rw [ht1]
    exact loadElems_keys_nodup d.tasks st.nextId
  have hnames1 : (d.tasks.foldl (fun s t => addTask env s
      { name := t.name, status := some t.status, pos := some t.pos })
      (clearGraph st)).tasks.map (fun q => q.2.name) = d.tasks.map DocTask.name := by
    rw [ht1]
    exact loadElems_names d.tasks st.nextId
  have hres1 : ∀ dep ∈ d.dependencies,
      dep.predecessor ∈ (d.tasks.foldl (fun s t => addTask env s
        { name := t.name, status := some t.status, pos := some t.pos })
        (clearGraph st)).tasks.map (fun q => q.2.name) ∧
      dep.successor ∈ (d.tasks.foldl (fun s t => addTask env s
        { name := t.name, status := some t.status, pos := some t.pos })
        (clearGraph st)).tasks.map (fun q => q.2.name) := by
    intro dep hdep
    rw [hnames1]
    exact hres dep hdep
  obtain ⟨hstrip, hdeps⟩ := loadDeps_fold d.dependencies _ hk1 hres1
  rw [hload]
  unfold getGraph
  have hT : (d.dependencies.foldl (fun s x => (addDependency s x).1)
      (d.tasks.foldl (fun s t => addTask env s
        { name := t.name, status := some t.status, pos := some t.pos })
        (clearGraph st))).tasks.map (fun q =>
        ({ name := q.2.name, pos := q.2.pos,
           status := if q.2.completed then Status.completed else Status.todo } : DocTask)) =
      d.tasks := by
    have h2 := congrArg (List.map (fun r : Nat × String × Bool × Point =>
      ({ name := r.2.1, pos := r.2.2.2,
         status := if r.2.2.1 then Status.completed else Status.todo } : DocTask))) hstrip
    rw [List.map_map, List.map_map] at h2
    have h3 : (d.tasks.foldl (fun s t => addTask env s
        { name := t.name, status := some t.status, pos := some t.pos })
        (clearGraph st)).tasks.map (fun q =>
          ({ name := q.2.name, pos := q.2.pos,
             status := if q.2.completed then Status.completed else Status.todo } : DocTask)) =
        d.tasks := by
      rw [ht1]
      exact loadElems_getTasks d.tasks st.nextId
    exact h2.trans h3
  have hD : (d.dependencies.foldl (fun s x => (addDependency s x).1)
      (d.tasks.foldl (fun s t => addTask env s
        { name := t.name, status := some t.status, pos := some t.pos })
        (clearGraph st))).deps.map (fun q =>
        ({ predecessor := taskNameOf (d.dependencies.foldl (fun s x => (addDependency s x).1)
              (d.tasks.foldl (fun s t => addTask env s
                { name := t.name, status := some t.status, pos := some t.pos })
                (clearGraph st))).tasks q.2.fromTask,
           successor := taskNameOf (d.dependencies.foldl (fun s x => (addDependency s x).1)
              (d.tasks.foldl (fun s t => addTask env s
                { name := t.name, status := some t.status, pos := some t.pos })
                (clearGraph st))).tasks q.2.toTask } : DocDep)) =
      d.dependencies := by
    rw [hdeps, hd1]
    rfl
  rw [hT, hD]

/-- A document with unique task names (there are none) whose single
dependency references absent tasks. -/
def cexDoc : GraphDoc := { tasks := [], dependencies := [⟨"A", "B"⟩] }

/-- Counterexample to claim C2 as stated: `cexDoc` has unique task names,
yet loading it and serializing again does not reproduce its dependency
array even up to ordering — the dependency referencing the absent tasks
"A" and "B" is skipped on load and lost. -/
theorem loadGraph_getGraph_cex :
    (cexDoc.tasks.map DocTask.name).Nodup ∧
    ¬ ((getGraph (loadGraph cexEnv emptyState cexDoc)).dependencies).Perm
        cexDoc.dependencies := by
  constructor
  · simp [cexDoc]
  · decide

/-- A two-task document with one resolvable dependency, for the C2
witness. -/
def wdoc : GraphDoc :=
  { tasks := [{ name := "A", pos := ⟨0, 0⟩, status := Status.todo },
              { name := "B", pos := ⟨5, 5⟩, status := Status.completed }],
    dependencies := [⟨"A", "B"⟩] }

/-- Witness for C2's amended theorem: the two-task document `wdoc` round
trips exactly. -/
theorem loadGraph_getGraph_witness :
    getGraph (loadGraph cexEnv emptyState wdoc) =
      { tasks := wdoc.tasks, dependencies := wdoc.dependencies } :=
  loadGraph_getGraph cexEnv emptyState wdoc (by decide) (by decide)

/-! ### Referential integrity of deletion (C1) -/

/-- Well-formedness of the model's cross-references, true of every
reachable state: element identities are unique, every live dependency is
registered in its predecessor's `from` array and its successor's `to`
array, and every adjacency entry points back to a live dependency with
the matching endpoint. -/
def WellFormed (st : GraphState) : Prop :=
  (st.tasks.map Prod.fst).Nodup ∧
  (st.deps.map Prod.fst).Nodup ∧
  (∀ p ∈ st.deps, p.1 ∈ fromListOf st.tasks p.2.fromTask ∧
                  p.1 ∈ toListOf st.tasks p.2.toTask) ∧
  (∀ q ∈ st.tasks, q.2.fromList.Nodup ∧ q.2.toList.Nodup ∧
    (∀ x ∈ q.2.fromList, depFromOf st.deps x = some q.1) ∧
    (∀ x ∈ q.2.toList, depToOf st.deps x = some q.1))

/-- The combined effect of `deleteDependency` for dependency `d` with
record `de` on the task with identity `j`. -/
def eraseAdj (de : DepElem) (d : Nat) (j : Nat) (te : TaskElem) : TaskElem :=
  { te with
    fromList := if j = de.fromTask then removeFromArray te.fromList d else te.fromList,
    toList := if j = de.toTask then removeFromArray te.toList d else te.toList }

theorem eraseAdj_fromList (de : DepElem) (d u : Nat) (te : TaskElem) :
    (eraseAdj de d u te).fromList =
      if u = de.fromTask then removeFromArray te.fromList d else te.fromList := rfl

theorem eraseAdj_toList (de : DepElem) (d u : Nat) (te : TaskElem) :
    (eraseAdj de d u te).toList =
      if u = de.toTask then removeFromArray te.toList d else te.toList := rfl

theorem removeFromArray_of_mem {l : List Nat} {x : Nat} (h : x ∈ l) :
    removeFromArray l x = l.erase x := if_pos h

theorem removeFromArray_nodup {l : List Nat} (h : l.Nodup) (x : Nat) :
    (removeFromArray l x).Nodup := by
  unfold removeFromArray
  split
  · exact h.erase x
  · exact List.Nodup.sublist (List.dropLast_sublist l) h

theorem fromListOf_mem {tasks : List (Nat × TaskElem)} {u x : Nat}
    (h : x ∈ fromListOf tasks u) :
    ∃ te, lookup? tasks u = some te ∧ x ∈ te.fromList := by
  unfold fromListOf at h
  cases hl : lookup? tasks u with
  | none =>
    rw [hl] at h
    simp at h
  | some te =>
    rw [hl] at h
    exact ⟨te, rfl, by simpa using h⟩

theorem toListOf_mem {tasks : List (Nat × TaskElem)} {u x : Nat}
    (h : x ∈ toListOf tasks u) :
    ∃ te, lookup? tasks u = some te ∧ x ∈ te.toList := by
  unfold toListOf at h
  cases hl : lookup? tasks u with
  | none =>
    rw [hl] at h
    simp at h
  | some te =>
    rw [hl] at h
    exact ⟨te, rfl, by simpa using h⟩

theorem fromListOf_of_lookup {tasks : List (Nat × TaskElem)} {u : Nat} {te : TaskElem}
    (h : lookup? tasks u = some te) : fromListOf tasks u = te.fromList := by
  unfold fromListOf
  rw [h]
  rfl

theorem toListOf_of_lookup {tasks : List (Nat × TaskElem)} {u : Nat} {te : TaskElem}
    (h : lookup? tasks u = some te) : toListOf tasks u = te.toList := by
  unfold toListOf
  rw [h]
  rfl

theorem deleteDependency_eq (st : GraphState) (d : Nat) (de : DepElem)
    (hd : lookup? st.deps d = some de) :
    deleteDependency st d = { st with
      tasks := updateTask (updateTask st.tasks de.fromTask
          (fun te => { te with fromList := removeFromArray te.fromList d }))
        de.toTask (fun te => { te with toList := removeFromArray te.toList d }),
      deps := removeKey st.deps d } := by
  unfold deleteDependency
  rw [hd]

theorem deleteDependency_lookup_tasks (st : GraphState) (d : Nat) (de : DepElem)
    (hd : lookup? st.deps d = some de) (j : Nat) :
    lookup? (deleteDependency st d).tasks j =
      (lookup? st.tasks j).map (eraseAdj de d j) := by
  rw [deleteDependency_eq st d de hd]
  show lookup? (updateTask (updateTask st.tasks de.fromTask
      (fun te => { te with fromList := removeFromArray te.fromList d }))
      de.toTask (fun te => { te with toList := removeFromArray te.toList d })) j = _
  rw [lookup?_updateTask, lookup?_updateTask]
  by_cases h1 : j = de.fromTask <;> by_cases h2 : j = de.toTask
  · rw [if_pos h2, if_pos h1, Option.map_map]
    cases lookup? st.tasks j with
    | none => rfl
    | some te =>
      show some _ = some (eraseAdj de d j te)
      unfold eraseAdj
      rw [if_pos h1, if_pos h2]
      rfl
  · rw [if_neg h2, if_pos h1]
    cases lookup? st.tasks j with
    | none => rfl
    | some te =>
      show some _ = some (eraseAdj de d j te)
      unfold eraseAdj
      rw [if_pos h1, if_neg h2]
  · rw [if_pos h2, if_neg h1]
    cases lookup? st.tasks j with
    | none => rfl
    | some te =>
      show some _ = some (eraseAdj de d j te)
      unfold eraseAdj
      rw [if_neg h1, if_pos h2]
  · rw [if_neg h2, if_neg h1]
    cases lookup? st.tasks j with
    | none => rfl
    | some te =>
      show some te = some (eraseAdj de d j te)
      unfold eraseAdj
      rw [if_neg h1, if_neg h2]

theorem deleteDependency_lookup_deps (st : GraphState) (d : Nat) (de : DepElem)
    (hd : lookup? st.deps d = some de) (x : Nat) :
    lookup? (deleteDependency st d).deps x =
      if x = d then none else lookup? st.deps x := by
  rw [deleteDependency_eq st d de hd]
  exact lookup?_removeKey st.deps d x

theorem deleteDependency_keys (st : GraphState) (d : Nat) (de : DepElem)
    (hd : lookup? st.deps d = some de) :
    (deleteDependency st d).tasks.map Prod.fst = st.tasks.map Prod.fst := by
  rw [deleteDependency_eq st d de hd]
  show (updateTask (updateTask st.tasks de.fromTask
      (fun te => { te with fromList := removeFromArray te.fromList d }))
      de.toTask (fun te => { te with toList := removeFromArray te.toList d })).map
      Prod.fst = _
  rw [updateTask_keys, updateTask_keys]

theorem deleteDependency_misc (st : GraphState) (d : Nat) (de : DepElem)
    (hd : lookup? st.deps d = some de) :
    (deleteDependency st d).events = st.events ∧
    (deleteDependency st d).nextId = st.nextId ∧
    (deleteDependency st d).panzoom = st.panzoom := by
  rw [deleteDependency_eq st d de hd]
  exact ⟨rfl, rfl, rfl⟩

theorem deleteDependency_spec (st : GraphState) (d : Nat) (de : DepElem)
    (hW : WellFormed st) (hd : lookup? st.deps d = some de) :
    WellFormed (deleteDependency st d) ∧
    ((deleteDependency st d).tasks.map Prod.fst = st.tasks.map Prod.fst) ∧
    (lookup? (deleteDependency st d).deps d = none) ∧
    (∀ x, x ≠ d → lookup? (deleteDependency st d).deps x = lookup? st.deps x) ∧
    (∀ j te te', lookup? st.tasks j = some te →
      lookup? (deleteDependency st d).tasks j = some te' →
      (∀ x ∈ te.fromList, x = d ∨ x ∈ te'.fromList) ∧
      (∀ x ∈ te'.fromList, x ∈ te.fromList) ∧
      (∀ x ∈ te.toList, x = d ∨ x ∈ te'.toList) ∧
      (∀ x ∈ te'.toList, x ∈ te.toList)) := by
  obtain ⟨hTN, hDN, hDepsOk, hTasksOk⟩ := hW
  have hmem : (d, de) ∈ st.deps := mem_of_lookup?_eq_some hd
  obtain ⟨hdf, hdt⟩ := hDepsOk (d, de) hmem
  obtain ⟨tef, hlf, hdinf⟩ := fromListOf_mem hdf
  obtain ⟨tet, hlt, hdint⟩ := toListOf_mem hdt
  have hkeys := deleteDependency_keys st d de hd
  have htl := deleteDependency_lookup_tasks st d de hd
  have hdl := deleteDependency_lookup_deps st d de hd
  have hdD : (deleteDependency st d).deps = removeKey st.deps d := by
    rw [deleteDependency_eq st d de hd]
  have hfl : ∀ j te, lookup? st.tasks j = some te →
      (eraseAdj de d j te).fromList =
        if j = de.fromTask then te.fromList.erase d else te.fromList := by
    intro j te hj
    rw [eraseAdj_fromList]
    by_cases h : j = de.fromTask
    · have hte : te = tef := by
        rw [h, hlf] at hj
        exact (Option.some.inj hj).symm
      rw [if_pos h, if_pos h, removeFromArray_of_mem (hte ▸ hdinf)]
    · rw [if_neg h, if_neg h]
  have htll : ∀ j te, lookup? st.tasks j = some te →
      (eraseAdj de d j te).toList =
        if j = de.toTask then te.toList.erase d else te.toList := by
    intro j te hj
    rw [eraseAdj_toList]
    by_cases h : j = de.toTask
    · have hte : te = tet := by
        rw [h, hlt] at hj
        exact (Option.some.inj hj).symm
      rw [if_pos h, if_pos h, removeFromArray_of_mem (hte ▸ hdint)]
    · rw [if_neg h, if_neg h]
  have hdepFrom : ∀ x, x ≠ d → depFromOf (deleteDependency st d).deps x =
      depFromOf st.deps x := by
    intro x hx
    unfold depFromOf
    rw [hdl x, if_neg hx]
  have hdepTo : ∀ x, x ≠ d → depToOf (deleteDependency st d).deps x =
      depToOf st.deps x := by
    intro x hx
    unfold depToOf
    rw [hdl x, if_neg hx]
  refine ⟨⟨?_, ?_, ?_, ?_⟩, hkeys, by rw [hdl d, if_pos rfl], fun x hx => by
    rw [hdl x, if_neg hx], ?_⟩
  · rw [hkeys]
    exact hTN
  · rw [hdD]
    exact List.Nodup.sublist (List.Sublist.map Prod.fst (removeKey_sublist st.deps d)) hDN
  · intro p hp
    rw [hdD] at hp
    obtain ⟨hpmem, hpne⟩ := mem_removeKey.mp hp
    obtain ⟨hpf, hpt⟩ := hDepsOk p hpmem
    constructor
    · obtain ⟨teu, hlu, hxu⟩ := fromListOf_mem hpf
      have hnew : lookup? (deleteDependency st d).tasks p.2.fromTask =
          some (eraseAdj de d p.2.fromTask teu) := by
        rw [htl, hlu]
        rfl
      rw [fromListOf_of_lookup hnew, hfl _ _ hlu]
      by_cases h : p.2.fromTask = de.fromTask
      · rw [if_pos h]
        exact (List.mem_erase_of_ne hpne).mpr hxu
      · rw [if_neg h]
        exact hxu
    · obtain ⟨teu, hlu, hxu⟩ := toListOf_mem hpt
      have hnew : lookup? (deleteDependency st d).tasks p.2.toTask =
          some (eraseAdj de d p.2.toTask teu) := by
        rw [htl, hlu]
        rfl
      rw [toListOf_of_lookup hnew, htll _ _ hlu]
      by_cases h : p.2.toTask = de.toTask
      · rw [if_pos h]
        exact (List.mem_erase_of_ne hpne).mpr hxu
      · rw [if_neg h]
        exact hxu
  · intro q hq
    obtain ⟨qk, qv⟩ := q
    have hDk : ((deleteDependency st d).tasks.map Prod.fst).Nodup := by
      rw [hkeys]
      exact hTN
    have hql : lookup? (deleteDependency st d).tasks qk = some qv :=
      lookup?_eq_some_of_mem hDk hq
    rw [htl qk] at hql
    obtain ⟨te, hte, hteq⟩ := Option.map_eq_some'.mp hql
    subst hteq
    obtain ⟨hfn, htn, hfv, htv⟩ := hTasksOk (qk, te) (mem_of_lookup?_eq_some hte)
    refine ⟨?_, ?_, ?_, ?_⟩
    · rw [hfl qk te hte]
      by_cases h : qk = de.fromTask
      · rw [if_pos h]
        exact hfn.erase d
      · rw [if_neg h]
        exact hfn
    · rw [htll qk te hte]
      by_cases h : qk = de.toTask
      · rw [if_pos h]
        exact htn.erase d
      · rw [if_neg h]
        exact htn
    · intro x hx
      rw [hfl qk te hte] at hx
      by_cases h : qk = de.fromTask
      · rw [if_pos h] at hx
        obtain ⟨hxd, hxm⟩ := (List.Nodup.mem_erase_iff hfn).mp hx
        rw [hdepFrom x hxd]
        exact hfv x hxm
      · rw [if_neg h] at hx
        have hxd : x ≠ d := by
          intro hxd
          subst hxd
          have := hfv x hx
          unfold depFromOf at this
          rw [hd] at this
          exact h (Option.some.inj this).symm
        rw [hdepFrom x hxd]
        exact hfv x hx
    · intro x hx
      rw [htll qk te hte] at hx
      by_cases h : qk = de.toTask
      · rw [if_pos h] at hx
        obtain ⟨hxd, hxm⟩ := (List.Nodup.mem_erase_iff htn).mp hx
        rw [hdepTo x hxd]
        exact htv x hxm
      · rw [if_neg h] at hx
        have hxd : x ≠ d := by
          intro hxd
          subst hxd
          have := htv x hx
          unfold depToOf at this
          rw [hd] at this
          exact h (Option.some.inj this).symm
        rw [hdepTo x hxd]
        exact htv x hx
  · intro j te te' hte hte'
    rw [htl j, hte] at hte'
    have hteq : eraseAdj de d j te = te' := Option.some.inj hte'
    obtain ⟨hfn, htn, hfv, htv⟩ := hTasksOk (j, te) (mem_of_lookup?_eq_some hte)
    subst hteq
    refine ⟨?_, ?_, ?_, ?_⟩
    · intro x hx
      rw [hfl j te hte]
      by_cases h : j = de.fromTask
      · rw [if_pos h]
        by_cases hxd : x = d
        · exact Or.inl hxd
        · exact Or.inr ((List.mem_erase_of_ne hxd).mpr hx)
      · rw [if_neg h]
        exact Or.inr hx
    · intro x hx
      rw [hfl j te hte] at hx
      by_cases h : j = de.fromTask
      · rw [if_pos h] at hx
        exact List.mem_of_mem_erase hx
      · rw [if_neg h] at hx
        exact hx
    · intro x hx
      rw [htll j te hte]
      by_cases h : j = de.toTask
      · rw [if_pos h]
        by_cases hxd : x = d
        · exact Or.inl hxd
        · exact Or.inr ((List.mem_erase_of_ne hxd).mpr hx)
      · rw [if_neg h]
        exact Or.inr hx
    · intro x hx
      rw [htll j te hte] at hx
      by_cases h : j = de.toTask
      · rw [if_pos h] at hx
        exact List.mem_of_mem_erase hx
      · rw [if_neg h] at hx
        exact hx

theorem depFromOf_some {deps : List (Nat × DepElem)} {x r : Nat}
    (h : depFromOf deps x = some r) : ∃ de2, lookup? deps x = some de2 := by
  unfold depFromOf at h
  cases hl : lookup? deps x with
  | none =>
    rw [hl] at h
    simp at h
  | some de2 => exact ⟨de2, rfl⟩

theorem depToOf_some {deps : List (Nat × DepElem)} {x r : Nat}
    (h : depToOf deps x = some r) : ∃ de2, lookup? deps x = some de2 := by
  unfold depToOf at h
  cases hl : lookup? deps x with
  | none =>
    rw [hl] at h
    simp at h
  | some de2 => exact ⟨de2, rfl⟩

theorem foldDelete_spec : ∀ (L : List Nat) (st : GraphState),
    WellFormed st → L.Nodup → (∀ x ∈ L, lookup? st.deps x ≠ none) →
    WellFormed (L.foldl deleteDependency st) ∧
    ((L.foldl deleteDependency st).tasks.map Prod.fst = st.tasks.map Prod.fst) ∧
    (∀ x ∈ L, lookup? (L.foldl deleteDependency st).deps x = none) ∧
    (∀ x, x ∉ L → lookup? (L.foldl deleteDependency st).deps x = lookup? st.deps x) ∧
    (∀ j te te', lookup? st.tasks j = some te →
      lookup? (L.foldl deleteDependency st).tasks j = some te' →
      (∀ x ∈ te.fromList, x ∈ L ∨ x ∈ te'.fromList) ∧
      (∀ x ∈ te'.fromList, x ∈ te.fromList) ∧
      (∀ x ∈ te.toList, x ∈ L ∨ x ∈ te'.toList) ∧
      (∀ x ∈ te'.toList, x ∈ te.toList)) := by
  intro L
  induction L with
  | nil =>
    intro st hW _ _
    refine ⟨hW, rfl, by simp, fun x _ => rfl, fun j te te' h h' => ?_⟩
    rw [List.foldl_nil, h] at h'
    obtain rfl := Option.some.inj h'
    exact ⟨fun x hx => Or.inr hx, fun x hx => hx, fun x hx => Or.inr hx, fun x hx => hx⟩
  | cons a L ih =>
    intro st hW hnd hlive
    rw [List.nodup_cons] at hnd
    have ha : lookup? st.deps a ≠ none := hlive a (List.mem_cons_self _ _)
    obtain ⟨de, hde⟩ : ∃ de, lookup? st.deps a = some de := by
      cases h : lookup? st.deps a with
      | none => exact absurd h ha
      | some de => exact ⟨de, rfl⟩
    obtain ⟨hW1, hkeys1, hnone1, hother1, hadj1⟩ := deleteDependency_spec st a de hW hde
    have hlive1 : ∀ x ∈ L, lookup? (deleteDependency st a).deps x ≠ none := by
      intro x hx
      rw [hother1 x (fun hxa => hnd.1 (hxa ▸ hx))]
      exact hlive x (List.mem_cons_of_mem _ hx)
    obtain ⟨ihW, ihkeys, ihnone, ihother, ihadj⟩ :=
      ih (deleteDependency st a) hW1 hnd.2 hlive1
    rw [List.foldl_cons]
    refine ⟨ihW, ihkeys.trans hkeys1, ?_, ?_, ?_⟩
    · intro x hx
      rcases List.mem_cons.mp hx with rfl | hx
      · by_cases hxL : x ∈ L
        · exact ihnone x hxL
        · rw [ihother x hxL]
          exact hnone1
      · exact ihnone x hx
    · intro x hx
      rw [List.mem_cons] at hx
      push_neg at hx
      rw [ihother x hx.2, hother1 x hx.1]
    · intro j te te' hte hte'
      have hsome1 : (lookup? (deleteDependency st a).tasks j).isSome := by
        rw [lookup?_isSome_iff, hkeys1, ← lookup?_isSome_iff, hte]
        rfl
      obtain ⟨te1, hte1⟩ : ∃ te1, lookup? (deleteDependency st a).tasks j = some te1 := by
        cases h : lookup? (deleteDependency st a).tasks j with
        | none =>
          rw [h] at hsome1
          simp at hsome1
        | some te1 => exact ⟨te1, rfl⟩
      obtain ⟨s1f, s1f2, s1t, s1t2⟩ := hadj1 j te te1 hte hte1
      obtain ⟨s2f, s2f2, s2t, s2t2⟩ := ihadj j te1 te' hte1 hte'
      refine ⟨?_, ?_, ?_, ?_⟩
      · intro x hx
        rcases s1f x hx with rfl | hx1
        · exact Or.inl (List.mem_cons_self _ _)
        · rcases s2f x hx1 with hxL | hx2
          · exact Or.inl (List.mem_cons_of_mem _ hxL)
          · exact Or.inr hx2
      · intro x hx
        exact s1f2 x (s2f2 x hx)
      · intro x hx
        rcases s1t x hx with rfl | hx1
        · exact Or.inl (List.mem_cons_self _ _)
        · rcases s2t x hx1 with hxL | hx2
          · exact Or.inl (List.mem_cons_of_mem _ hxL)
          · exact Or.inr hx2
      · intro x hx
        exact s1t2 x (s2t2 x hx)

/-- Claim C1: deleting a task from a well-formed model first deletes
every dependency incident to it — each via `deleteDependency`, which
removes the dependency from its predecessor's `from` array and its
successor's `to` array — and only then removes the task element itself:
afterwards no live dependency references the deleted task from either
endpoint, every adjacency entry of every remaining task still points at
a live dependency (no adjacency list retains a deleted dependency), and
the task element itself is gone. -/
theorem deleteTask_no_dangling (st : GraphState) (t : Nat) (hW : WellFormed st) :
    (∀ p ∈ (deleteTask st t).deps, p.2.fromTask ≠ t ∧ p.2.toTask ≠ t) ∧
    (∀ q ∈ (deleteTask st t).tasks,
      (∀ x ∈ q.2.fromList, ∃ de2, lookup? (deleteTask st t).deps x = some de2) ∧
      (∀ x ∈ q.2.toList, ∃ de2, lookup? (deleteTask st t).deps x = some de2)) ∧
    lookup? (deleteTask st t).tasks t = none := by
  cases hlt : lookup? st.tasks t with
  | none =>
    have heq : deleteTask st t = st := by
      unfold deleteTask
      rw [hlt]
    rw [heq]
    obtain ⟨hTN, hDN, hDepsOk, hTasksOk⟩ := hW
    refine ⟨?_, ?_, hlt⟩
    · intro p hp
      obtain ⟨hpf, hpt⟩ := hDepsOk p hp
      constructor
      · intro hft
        rw [hft] at hpf
        unfold fromListOf at hpf
        rw [hlt] at hpf
        simp at hpf
      · intro htt
        rw [htt] at hpt
        unfold toListOf at hpt
        rw [hlt] at hpt
        simp at hpt
    · intro q hq
      obtain ⟨_, _, hfv, htv⟩ := hTasksOk q hq
      exact ⟨fun x hx => depFromOf_some (hfv x hx), fun x hx => depToOf_some (htv x hx)⟩
  | some te =>
    have htemem : (t, te) ∈ st.tasks := mem_of_lookup?_eq_some hlt
    obtain ⟨hfn, htn, hfv, htv⟩ := hW.2.2.2 (t, te) htemem
    have hlive1 : ∀ x ∈ te.fromList, lookup? st.deps x ≠ none := by
      intro x hx hc
      have h2 := hfv x hx
      unfold depFromOf at h2
      rw [hc] at h2
      simp at h2
    obtain ⟨W1, K1, N1, O1, A1⟩ := foldDelete_spec te.fromList st hW hfn hlive1
    have hsome1 : (lookup? (te.fromList.foldl deleteDependency st).tasks t).isSome := by
      rw [lookup?_isSome_iff, K1, ← lookup?_isSome_iff, hlt]
      rfl
    obtain ⟨te1, hte1⟩ : ∃ te1,
        lookup? (te.fromList.foldl deleteDependency st).tasks t = some te1 := by
      cases h : lookup? (te.fromList.foldl deleteDependency st).tasks t with
      | none =>
        rw [h] at hsome1
        simp at hsome1
      | some te1 => exact ⟨te1, rfl⟩
    have hte1mem : (t, te1) ∈ (te.fromList.foldl deleteDependency st).tasks :=
      mem_of_lookup?_eq_some hte1
    obtain ⟨hfn1, htn1, hfv1, htv1⟩ := W1.2.2.2 (t, te1) hte1mem
    have hlive2 : ∀ x ∈ te1.toList,
        lookup? (te.fromList.foldl deleteDependency st).deps x ≠ none := by
      intro x hx hc
      have h2 := htv1 x hx
      unfold depToOf at h2
      rw [hc] at h2
      simp at h2
    obtain ⟨W2, K2, N2, O2, A2⟩ := foldDelete_spec te1.toList
      (te.fromList.foldl deleteDependency st) W1 htn1 hlive2
    have hdtEq : deleteTask st t = { (te1.toList.foldl deleteDependency
        (te.fromList.foldl deleteDependency st)) with
      tasks := removeKey (te1.toList.foldl deleteDependency
        (te.fromList.foldl deleteDependency st)).tasks t } := by
      unfold deleteTask
      simp only [hlt, hte1]
    rw [hdtEq]
    obtain ⟨k2a, k2b, dOk2, tOk2⟩ := W2
    refine ⟨?_, ?_, ?_⟩
    · intro p hp
      have hp2 : p ∈ (te1.toList.foldl deleteDependency
          (te.fromList.foldl deleteDependency st)).deps := hp
      have hlp : lookup? (te1.toList.foldl deleteDependency
          (te.fromList.foldl deleteDependency st)).deps p.1 = some p.2 :=
        lookup?_eq_some_of_mem k2b hp2
      have hnL2 : p.1 ∉ te1.toList := by
        intro hmem2
        rw [N2 p.1 hmem2] at hlp
        exact Option.noConfusion hlp
      have hlp1 : lookup? (te.fromList.foldl deleteDependency st).deps p.1 = some p.2 := by
        rw [← O2 p.1 hnL2]
        exact hlp
      have hnL1 : p.1 ∉ te.fromList := by
        intro hmem1
        rw [N1 p.1 hmem1] at hlp1
        exact Option.noConfusion hlp1
      have hlp0 : lookup? st.deps p.1 = some p.2 := by
        rw [← O1 p.1 hnL1]
        exact hlp1
      have hpmem0 : (p.1, p.2) ∈ st.deps := mem_of_lookup?_eq_some hlp0
      obtain ⟨hpf0, hpt0⟩ := hW.2.2.1 (p.1, p.2) hpmem0
      constructor
      · intro hft
        rw [hft, fromListOf_of_lookup hlt] at hpf0
        exact hnL1 hpf0
      · intro htt
        rw [htt, toListOf_of_lookup hlt] at hpt0
        obtain ⟨_, _, s1t, _⟩ := A1 t te te1 hlt hte1
        rcases s1t p.1 hpt0 with h1 | h2
        · exact hnL1 h1
        · exact hnL2 h2
    · intro q hq
      have hq2 : q ∈ (te1.toList.foldl deleteDependency
          (te.fromList.foldl deleteDependency st)).tasks := (mem_removeKey.mp hq).1
      obtain ⟨_, _, hfv2, htv2⟩ := tOk2 q hq2
      exact ⟨fun x hx => depFromOf_some (hfv2 x hx),
             fun x hx => depToOf_some (htv2 x hx)⟩
    · show lookup? (removeKey _ t) t = none
      rw [lookup?_removeKey, if_pos rfl]

instance (st : GraphState) : Decidable (WellFormed st) := by
  unfold WellFormed
  infer_instance

/-- A well-formed two-task one-dependency state for the C1 witness:
dependency 2 runs from task 0 to task 1. -/
def wst1 : GraphState :=
  { tasks := [(0, { wtask "A" with fromList := [2] }),
              (1, { wtask "B" with toList := [2] })],
    deps := [(2, { fromTask := 0, toTask := 1 })],
    nextId := 3,
    panzoom := { pan := ⟨0, 0⟩, zoom := 1 }, events := [] }

/-- Witness for C1 on the concrete state `wst1`: deleting task 0 leaves
no dependency referencing it, no dangling adjacency entry, and no task
element 0. -/
theorem deleteTask_no_dangling_witness :
    (∀ p ∈ (deleteTask wst1 0).deps, p.2.fromTask ≠ 0 ∧ p.2.toTask ≠ 0) ∧
    (∀ q ∈ (deleteTask wst1 0).tasks,
      (∀ x ∈ q.2.fromList, ∃ de2, lookup? (deleteTask wst1 0).deps x = some de2) ∧
      (∀ x ∈ q.2.toList, ∃ de2, lookup? (deleteTask wst1 0).deps x = some de2)) ∧
    lookup? (deleteTask wst1 0).tasks 0 = none :=
  deleteTask_no_dangling wst1 0 (by decide)
